import Mathlib

/-!
# Verification of the task orchestration core

A shallow embedding of the orchestration core of
`src/agents/orchestrator_enhanced.py`: the priority task queue (CPython's
`heapq` algorithm, as used by `queue.PriorityQueue`), dependency gating,
the agent registry with load and heartbeat tracking, the dispatch loop
`_process_task_queue`, task execution and completion handling, and the
status-reporting API.

Python's mutable objects are modelled by an explicit object store
(`OrchState.store`, a list of task records indexed by allocation order);
dictionaries (`tasks`, `completed_tasks`, `failed_tasks`) are
insertion-ordered association lists from keys to store indices, with
Python-dict update semantics (overwriting an existing key keeps its
position, a new key is appended at the end).  Timestamps are natural
numbers supplied explicitly to each operation.
-/

set_option maxHeartbeats 1000000

namespace Orchestrator

/-- `TaskPriority` enum of the source: CRITICAL=1, HIGH=2, NORMAL=3, LOW=4,
BACKGROUND=5. -/
inductive TaskPriority where
  | critical
  | high
  | normal
  | low
  | background
deriving DecidableEq, Repr

/-- The numeric `.value` of a `TaskPriority` member. -/
def TaskPriority.value : TaskPriority → Nat
  | .critical => 1
  | .high => 2
  | .normal => 3
  | .low => 4
  | .background => 5

/-- `AgentType` enum of the source. -/
inductive AgentType where
  | orchestrator
  | implementation
  | environment
  | configuration
  | testing
deriving DecidableEq, Repr

/-- `TaskStatus` enum of the source (the CANCELLED member is declared but
never assigned anywhere in the orchestrator). -/
inductive TaskStatus where
  | pending
  | running
  | completed
  | failed
  | cancelled
deriving DecidableEq, Repr

/-- The `AgentTask` dataclass.  `parameters` is carried as a string
association list; handlers of the source ignore it. -/
structure AgentTask where
  task_id : String
  task_type : String
  description : String
  agent_type : AgentType
  priority : TaskPriority
  parameters : List (String × String) := []
  deadline : Option Nat := none
  dependencies : List String := []
  status : TaskStatus := .pending
  result : Option String := none
  error_message : Option String := none
  created_at : Nat := 0
  started_at : Option Nat := none
  completed_at : Option Nat := none
  assigned_agent : Option String := none
deriving DecidableEq, Repr

/-- Placeholder record used to totalise out-of-range store reads; system
operations never reach it on indices allocated by `submit_task`. -/
def dummyTask : AgentTask :=
  { task_id := ""
    task_type := ""
    description := ""
    agent_type := .orchestrator
    priority := .normal }

/-- The `AgentInfo` dataclass. -/
structure AgentInfo where
  agent_id : String
  agent_type : AgentType
  version : String := "2.0.0"
  is_active : Bool := true
  load_factor : Int := 0
  capabilities : List String := []
  max_concurrent_tasks : Nat := 5
  heartbeat_interval : Nat := 30
  last_heartbeat : Nat := 0
  grpc_address : Option String := none
deriving DecidableEq, Repr

/-- Placeholder agent record for totalising out-of-range reads. -/
def dummyAgent : AgentInfo :=
  { agent_id := ""
    agent_type := .orchestrator
    is_active := false }

/-- The `OrchestratorConfig` dataclass (float durations become naturals). -/
structure OrchestratorConfig where
  max_agents : Nat := 10
  task_timeout : Nat := 3600
  heartbeat_timeout : Nat := 90
  max_retries : Nat := 3
  log_level : String := "INFO"
  grpc_port : Nat := 50051
  enable_autonomous_mode : Bool := true
  uv_venv_path : String := ".venv"
  source_compilation_enabled : Bool := true
deriving DecidableEq, Repr

/-! ## Python dict as insertion-ordered association list -/

/-- Dictionary lookup (`m.get(k)` / `k in m`). -/
def lookupAssoc (m : List (String × Nat)) (k : String) : Option Nat :=
  match m with
  | [] => none
  | (k', v) :: rest => if k' = k then some v else lookupAssoc rest k

/-- Dictionary assignment `m[k] = v`: overwriting an existing key keeps its
position, a new key is appended at the end (Python 3.7+ dict semantics). -/
def insertAssoc (m : List (String × Nat)) (k : String) (v : Nat) :
    List (String × Nat) :=
  match m with
  | [] => [(k, v)]
  | (k', v') :: rest =>
      if k' = k then (k, v) :: rest else (k', v') :: insertAssoc rest k v

/-! ## CPython `heapq` on a list, as used by `queue.PriorityQueue`

The queue holds `AgentTask` objects; `AgentTask.__lt__` compares only
`priority.value`.  A heap entry is therefore represented by its ordering
key (the priority value, which is never mutated) together with the store
index of the task object it references. -/

/-- One entry of the priority queue: the comparison key (`priority.value`
of the task, the only field `AgentTask.__lt__` reads) and the store index
of the task object. -/
structure QItem where
  prio : Nat
  obj : Nat
deriving DecidableEq, Repr

/-- `AgentTask.__lt__`: compares only the numeric priority values. -/
def qlt (a b : QItem) : Bool := a.prio < b.prio

/-- Loop of CPython `heapq._siftdown(heap, startpos, pos)`: bubble
`newitem` toward the root while it is smaller than its parent.  The loop
variable `pos` strictly decreases, so the explicit iteration bound `fuel`
is exact whenever `fuel ≥ pos` (callers pass the array length); structural
recursion on the bound keeps the function kernel-reducible. -/
def siftdownLoop (startpos : Nat) (newitem : QItem) :
    Nat → List QItem → Nat → List QItem
  | 0, heap, pos => heap.set pos newitem
  | fuel + 1, heap, pos =>
      if startpos < pos then
        let parentpos := (pos - 1) / 2
        let parent := heap.getD parentpos ⟨0, 0⟩
        if qlt newitem parent then
          siftdownLoop startpos newitem fuel (heap.set pos parent) parentpos
        else
          heap.set pos newitem
      else
        heap.set pos newitem

/-- Loop of CPython `heapq._siftup(heap, pos)`: move the hole at `pos` down
to a leaf, always toward the smaller child; returns the array and the final
hole position.  `pos` strictly increases below `endpos`, so any
`fuel ≥ endpos - pos` is exact (callers pass the array length). -/
def siftupLoop (endpos : Nat) : Nat → List QItem → Nat → List QItem × Nat
  | 0, heap, pos => (heap, pos)
  | fuel + 1, heap, pos =>
      if 2 * pos + 1 < endpos then
        let childpos := 2 * pos + 1
        let rightpos := childpos + 1
        if rightpos < endpos ∧
            qlt (heap.getD childpos ⟨0, 0⟩) (heap.getD rightpos ⟨0, 0⟩)
              = false then
          siftupLoop endpos fuel (heap.set pos (heap.getD rightpos ⟨0, 0⟩))
            rightpos
        else
          siftupLoop endpos fuel (heap.set pos (heap.getD childpos ⟨0, 0⟩))
            childpos
      else
        (heap, pos)

/-- CPython `heapq._siftup(heap, pos)`: move the item at `pos` down to a
leaf, then restore it by `_siftdown`. -/
def heapSiftup (heap : List QItem) (pos : Nat) : List QItem :=
  let newitem := heap.getD pos ⟨0, 0⟩
  let r := siftupLoop heap.length heap.length heap pos
  siftdownLoop pos newitem heap.length r.1 r.2

/-- CPython `heapq.heappush`. -/
def heappush (heap : List QItem) (item : QItem) : List QItem :=
  let heap' := heap ++ [item]
  siftdownLoop 0 item heap'.length heap' (heap'.length - 1)

/-- CPython `heapq.heappop`: pops the last element; if the heap is then
nonempty, the root is returned and the last element sifts down from the
root.  Returns `none` on an empty heap (in the source this raises, but
`_process_task_queue` only pops after an emptiness check). -/
def heappop (heap : List QItem) : Option (QItem × List QItem) :=
  match heap with
  | [] => none
  | _ :: _ =>
      let lastelt := heap.getD (heap.length - 1) ⟨0, 0⟩
      let rest := heap.dropLast
      if rest.length = 0 then
        some (lastelt, rest)
      else
        let returnitem := rest.getD 0 ⟨0, 0⟩
        some (returnitem, heapSiftup (rest.set 0 lastelt) 0)

/-! ## Orchestrator state

Python objects are mutable and shared by reference: the same `AgentTask`
object appears in `self.tasks`, in the priority queue, and (on completion)
in `self.completed_tasks`.  The embedding therefore keeps an explicit
object `store` (allocation-ordered) and lets every container hold store
indices; mutating a task mutates the store entry all containers point to. -/

/-- The mutable state of an `AgentOrchestrator` instance.  `store` is the
object heap of task records; `tasks`, `completed_tasks`, `failed_tasks`
are the three dictionaries keyed by `task_id`; `heap` is the
`PriorityQueue`'s backing list; `pendingExec` records `executor.submit`
calls not yet run; `dispatchLog` and `popLog` are observation logs of
assignment order and queue-pop order. -/
structure OrchState where
  agents : List AgentInfo
  store : List AgentTask
  tasks : List (String × Nat)
  heap : List QItem
  completed_tasks : List (String × Nat)
  failed_tasks : List (String × Nat)
  pendingExec : List (Nat × Nat)
  dispatchLog : List (Nat × Nat)
  popLog : List Nat
  running : Bool
deriving Repr

/-- State of a freshly constructed orchestrator, before any registration. -/
def initState : OrchState :=
  { agents := []
    store := []
    tasks := []
    heap := []
    completed_tasks := []
    failed_tasks := []
    pendingExec := []
    dispatchLog := []
    popLog := []
    running := true }

/-- `self.agents[agent.agent_id] = agent` (registration; dict insertion
order is the iteration order `_find_available_agent` scans). -/
def register_agent (s : OrchState) (agent : AgentInfo) : OrchState :=
  { s with agents := s.agents ++ [agent] }

/-- `_dependencies_satisfied`: every dependency id must be a key of
`self.completed_tasks`; an id with no entry anywhere makes it `false`. -/
def dependencies_satisfied (task : AgentTask)
    (completed : List (String × Nat)) : Bool :=
  task.dependencies.all fun dep => (lookupAssoc completed dep).isSome

/-- The eligibility test of `_find_available_agent`: matching type, active,
and `load_factor < 80` (the 80% max-load threshold). -/
def agentAvailable (agent : AgentInfo) (t : AgentType) : Bool :=
  agent.agent_type == t && agent.is_active && agent.load_factor < 80

/-- `_find_available_agent`: linear scan in registration (dict iteration)
order, returning the index of the first eligible agent. -/
def find_available_agent : List AgentInfo → AgentType → Option Nat
  | [], _ => none
  | a :: rest, t =>
      if agentAvailable a t then some 0
      else (find_available_agent rest t).map (· + 1)

/-- `_assign_task_to_agent`: mark the task RUNNING, stamp `started_at`,
record the agent, raise the agent's load by the fixed step 20 (no upper
clamp in the source), and hand the pair to the worker pool
(`executor.submit(self._execute_task, task, agent)`). -/
def assign_task_to_agent (s : OrchState) (j a : Nat) (now : Nat) :
    OrchState :=
  let task := s.store.getD j dummyTask
  let agent := s.agents.getD a dummyAgent
  { s with
    store := s.store.set j
      { task with
        status := .running
        started_at := some now
        assigned_agent := some agent.agent_id }
    agents := s.agents.set a
      { agent with load_factor := agent.load_factor + 20 }
    pendingExec := s.pendingExec ++ [(j, a)]
    dispatchLog := s.dispatchLog ++ [(j, a)] }

/-- `_process_task_queue`: drain the priority queue.  A popped task whose
dependencies are unsatisfied is re-queued and the loop CONTINUES; a popped
task with no available agent is re-queued and the loop BREAKS.  The
source's `while not empty` loop is given explicit fuel (the loop body is
re-entered at most `fuel` times). -/
def process_task_queue (now : Nat) : Nat → OrchState → OrchState
  | 0, s => s
  | fuel + 1, s =>
      if s.heap.length = 0 ∨ s.running = false then s
      else
        match heappop s.heap with
        | none => s
        | some (item, heap') =>
            let s1 := { s with heap := heap', popLog := s.popLog ++ [item.obj] }
            let task := s1.store.getD item.obj dummyTask
            if dependencies_satisfied task s1.completed_tasks = false then
              process_task_queue now fuel
                { s1 with heap := heappush s1.heap item }
            else
              match find_available_agent s1.agents task.agent_type with
              | some a =>
                  process_task_queue now fuel
                    (assign_task_to_agent s1 item.obj a now)
              | none => { s1 with heap := heappush s1.heap item }

/-- Deterministic outcome of the task handler dispatched by
`_execute_task`: the routing over agent type and `task_type`, with the
placeholder handlers' return strings and the `ValueError` messages raised
on unknown kinds (captured by the except-branch as `str(e)`). -/
def execOutcome (agentType : AgentType) (taskType : String) :
    Except String String :=
  match agentType with
  | .implementation =>
      if taskType = "generate_cpp_module" then .ok "cpp_module_generated"
      else if taskType = "create_python_bindings" then
        .ok "python_bindings_created"
      else if taskType = "optimize_simd" then .ok "simd_optimization_applied"
      else .error ("Unknown implementation task: " ++ taskType)
  | .environment =>
      if taskType = "setup_dependencies" then .ok "dependencies_configured"
      else if taskType = "compile_source_libraries" then
        .ok "source_libraries_compiled"
      else if taskType = "configure_uv_environment" then
        .ok "uv_environment_configured"
      else .error ("Unknown environment task: " ++ taskType)
  | .configuration =>
      if taskType = "generate_cmake" then .ok "cmake_configuration_generated"
      else if taskType = "setup_grpc" then .ok "grpc_integration_setup"
      else .error ("Unknown configuration task: " ++ taskType)
  | .testing =>
      if taskType = "run_unit_tests" then .ok "unit_tests_executed"
      else if taskType = "run_benchmarks" then .ok "benchmarks_executed"
      else if taskType = "generate_coverage" then
        .ok "coverage_report_generated"
      else .error ("Unknown testing task: " ++ taskType)
  | .orchestrator => .error "Unknown agent type: AgentType.ORCHESTRATOR"

/-- `_execute_task` body, run on a worker thread for the pair `(j, a)`:
on handler success the task becomes COMPLETED with its result and joins
`completed_tasks`; on a raised exception it becomes FAILED with the
captured message and joins `failed_tasks`; either way `completed_at` is
stamped and the agent's load drops by the step 20, clamped at 0.  The
exception never propagates out. -/
def execute_task (s : OrchState) (j a : Nat) (now : Nat) : OrchState :=
  let task := s.store.getD j dummyTask
  let agent := s.agents.getD a dummyAgent
  match execOutcome agent.agent_type task.task_type with
  | .ok r =>
      { s with
        store := s.store.set j
          { task with
            status := .completed
            result := some r
            completed_at := some now }
        completed_tasks := insertAssoc s.completed_tasks task.task_id j
        agents := s.agents.set a
          { agent with load_factor := max 0 (agent.load_factor - 20) } }
  | .error msg =>
      { s with
        store := s.store.set j
          { task with
            status := .failed
            error_message := some msg
            completed_at := some now }
        failed_tasks := insertAssoc s.failed_tasks task.task_id j
        agents := s.agents.set a
          { agent with load_factor := max 0 (agent.load_factor - 20) } }

/-- One worker-pool step: run the `k`-th pending `_execute_task` call and
retire it from the pool's backlog.  An out-of-range `k` does nothing. -/
def run_pending_exec (s : OrchState) (k : Nat) (now : Nat) : OrchState :=
  match s.pendingExec.get? k with
  | none => s
  | some (j, a) =>
      execute_task { s with pendingExec := s.pendingExec.eraseIdx k } j a now

/-- One sweep of `_agent_monitor`: any agent whose `last_heartbeat` is
older than `config.heartbeat_timeout` is marked inactive. -/
def agent_monitor_sweep (cfg : OrchestratorConfig) (s : OrchState)
    (now : Nat) : OrchState :=
  { s with
    agents := s.agents.map fun agent =>
      if now - agent.last_heartbeat > cfg.heartbeat_timeout then
        { agent with is_active := false }
      else agent }

/-- Modelled from the spec: the heartbeat receipt path (`heartbeat(agentId)`
of §6) is absent from `src/` — only the gRPC stub and the timeout sweep
exist — so per §3 a fresh heartbeat signal updates `lastHeartbeat` and
resets `isActive` to true. -/
def heartbeat_signal (s : OrchState) (a : Nat) (now : Nat) : OrchState :=
  let agent := s.agents.getD a dummyAgent
  if a < s.agents.length then
    { s with
      agents := s.agents.set a
        { agent with is_active := true, last_heartbeat := now } }
  else s

/-- `submit_task` applied to an already-allocated task object `j` (Python
passes objects by reference; callers may hand back any object they hold):
store it under its id in `self.tasks` and push it on the queue. -/
def submit_task_obj (s : OrchState) (j : Nat) : OrchState :=
  let task := s.store.getD j dummyTask
  { s with
    tasks := insertAssoc s.tasks task.task_id j
    heap := heappush s.heap ⟨task.priority.value, j⟩ }

/-- `submit_task` on a freshly constructed `AgentTask` value: allocate the
object, record it in `self.tasks`, and push it on the priority queue. -/
def submit_task (s : OrchState) (task : AgentTask) : OrchState :=
  submit_task_obj { s with store := s.store ++ [task] } s.store.length

/-- `get_task_status`: look the id up in `self.tasks` and hand back the
(live) task record. -/
def get_task_status (s : OrchState) (id : String) : Option AgentTask :=
  (lookupAssoc s.tasks id).map fun j => s.store.getD j dummyTask

/-- The fields of the dictionary built by `get_system_status`. -/
structure SystemStatus where
  agents_total : Nat
  agents_active : Nat
  tasks_total : Nat
  tasks_pending : Nat
  tasks_running : Nat
  tasks_completed : Nat
  tasks_failed : Nat
  orchestrator_running : Bool
  autonomous_mode : Bool
deriving DecidableEq, Repr

/-- `get_system_status`: counts pending/running by scanning
`self.tasks.values()`, and reports completed/failed as the sizes of the
two terminal dictionaries. -/
def get_system_status (cfg : OrchestratorConfig) (s : OrchState) :
    SystemStatus :=
  { agents_total := s.agents.length
    agents_active := (s.agents.filter fun a => a.is_active).length
    tasks_total := s.tasks.length
    tasks_pending := (s.tasks.filter fun p =>
      (s.store.getD p.2 dummyTask).status == .pending).length
    tasks_running := (s.tasks.filter fun p =>
      (s.store.getD p.2 dummyTask).status == .running).length
    tasks_completed := s.completed_tasks.length
    tasks_failed := s.failed_tasks.length
    orchestrator_running := s.running
    autonomous_mode := cfg.enable_autonomous_mode }

/-! ## System transitions

A step is one atomic, lock-guarded operation of the running system: agent
registration (the constructor registers built-in agents with the
dataclass defaults `load_factor = 0`, `is_active = True`), a `submit_task`
call on a freshly constructed task (the §6 API builds each task anew with
a fresh uuid and the dataclass default `status = PENDING`), a pass of the
dispatch loop, one worker-pool execution, a monitor sweep, or a heartbeat
receipt. -/

/-- One atomic operation of the running orchestrator. -/
inductive Step (cfg : OrchestratorConfig) : OrchState → OrchState → Prop where
  | register (s : OrchState) (agent : AgentInfo)
      (hload : agent.load_factor = 0) (hact : agent.is_active = true) :
      Step cfg s (register_agent s agent)
  | submit (s : OrchState) (task : AgentTask)
      (hst : task.status = .pending)
      (hfresh : lookupAssoc s.tasks task.task_id = none) :
      Step cfg s (submit_task s task)
  | drain (s : OrchState) (now fuel : Nat) :
      Step cfg s (process_task_queue now fuel s)
  | exec (s : OrchState) (k now : Nat) :
      Step cfg s (run_pending_exec s k now)
  | sweep (s : OrchState) (now : Nat) :
      Step cfg s (agent_monitor_sweep cfg s now)
  | heartbeat (s : OrchState) (a now : Nat) :
      Step cfg s (heartbeat_signal s a now)

/-- States reachable from a freshly constructed orchestrator. -/
inductive Reachable (cfg : OrchestratorConfig) : OrchState → Prop where
  | init : Reachable cfg initState
  | step {s s' : OrchState} :
      Reachable cfg s → Step cfg s s' → Reachable cfg s'

/-! ## Concrete scenario states -/

/-- A caller-constructed task value (everything not passed keeps the
dataclass default). -/
def mkTask (id tt : String) (ag : AgentType) (p : TaskPriority)
    (deps : List String) : AgentTask :=
  { task_id := id
    task_type := tt
    description := ""
    agent_type := ag
    priority := p
    dependencies := deps }

/-- A testing-type agent with the registration defaults. -/
def testAgent : AgentInfo :=
  { agent_id := "test-0", agent_type := .testing }

/-- An implementation-type agent with the registration defaults. -/
def implAgent : AgentInfo :=
  { agent_id := "impl-0", agent_type := .implementation }

/-! ## Library-style helper lemmas -/

theorem getD_set_self {α : Type} {l : List α} {i : Nat} {v d : α}
    (h : i < l.length) : (l.set i v).getD i d = v := by
  rw [List.getD_eq_getElem, List.getElem_set_self]
  simpa using h

theorem getD_set_ne {α : Type} {l : List α} {i j : Nat} {v d : α}
    (h : i ≠ j) : (l.set i v).getD j d = l.getD j d := by
  rcases Nat.lt_or_ge j l.length with hj | hj
  · rw [List.getD_eq_getElem, List.getD_eq_getElem _ _ hj,
      List.getElem_set_ne h]
    simpa using hj
  · rw [List.getD_eq_default, List.getD_eq_default _ _ hj]
    simpa using hj

theorem set_getD_self {α : Type} {l : List α} {i : Nat} {d : α}
    (h : i < l.length) : l.set i (l.getD i d) = l := by
  induction l generalizing i with
  | nil => simp at h
  | cons a t ih =>
      cases i with
      | zero => simp
      | succ n =>
          simp only [List.set, List.getD, List.get?]
          have := ih (i := n) (by simpa using h)
          simpa [List.getD] using this

theorem mem_getD {α : Type} {l : List α} {i : Nat} {d : α}
    (h : i < l.length) : l.getD i d ∈ l := by
  rw [List.getD_eq_getElem _ _ h]
  exact l.getElem_mem h

theorem mem_of_mem_set {α : Type} {l : List α} {i : Nat} {v x : α}
    (h : x ∈ l.set i v) : x ∈ l ∨ x = v := by
  induction l generalizing i with
  | nil => simp at h
  | cons a t ih =>
      cases i with
      | zero =>
          rcases List.mem_cons.mp h with h | h
          · right; exact h
          · left; exact List.mem_cons_of_mem _ h
      | succ n =>
          rcases List.mem_cons.mp h with h | h
          · left; exact h ▸ List.mem_cons_self _ _
          · rcases ih h with h | h
            · left; exact List.mem_cons_of_mem _ h
            · right; exact h

theorem count_set {α : Type} [DecidableEq α] {l : List α} {i : Nat}
    {v d : α} (h : i < l.length) (x : α) :
    (l.set i v).count x + (if l.getD i d = x then 1 else 0)
      = l.count x + (if v = x then 1 else 0) := by
  induction l generalizing i with
  | nil => simp at h
  | cons a t ih =>
      cases i with
      | zero =>
          simp only [List.set, List.getD, List.get?, List.count_cons]
          by_cases hv : v = x <;> by_cases ha : a = x <;> simp [hv, ha]
      | succ n =>
          have H := ih (i := n) (by simpa using h)
          have hg : (a :: t).getD (n + 1) d = t.getD n d := rfl
          have hs : (a :: t).set (n + 1) v = a :: t.set n v := rfl
          rw [hs, hg, List.count_cons, List.count_cons]
          omega

theorem set_set_perm {α : Type} [DecidableEq α] {l : List α} {i j : Nat}
    {a b : α} (hij : i ≠ j) (hi : i < l.length) (hj : j < l.length) :
    ((l.set i a).set j b).Perm ((l.set i b).set j a) := by
  rw [List.perm_iff_count]
  intro x
  have h1 := count_set (l := l.set i a) (i := j) (v := b) (d := a)
    (by simpa using hj) x
  have h2 := count_set (l := l) (i := i) (v := a) (d := a) hi x
  have h3 := count_set (l := l.set i b) (i := j) (v := a) (d := a)
    (by simpa using hj) x
  have h4 := count_set (l := l) (i := i) (v := b) (d := a) hi x
  rw [getD_set_ne hij] at h1 h3
  omega

theorem lookupAssoc_insertAssoc_self (m : List (String × Nat)) (k : String)
    (v : Nat) : lookupAssoc (insertAssoc m k v) k = some v := by
  induction m with
  | nil => simp [insertAssoc, lookupAssoc]
  | cons p rest ih =>
      by_cases h : p.1 = k <;> simp [insertAssoc, lookupAssoc, h, ih]

theorem lookupAssoc_insertAssoc_ne (m : List (String × Nat))
    {k k' : String} (v : Nat) (h : k' ≠ k) :
    lookupAssoc (insertAssoc m k v) k' = lookupAssoc m k' := by
  have hkk : ¬ k = k' := fun hc => h hc.symm
  induction m with
  | nil => simp [insertAssoc, lookupAssoc, hkk]
  | cons p rest ih =>
      by_cases hp : p.1 = k
      · simp [insertAssoc, lookupAssoc, hp, hkk]
      · by_cases hp' : p.1 = k' <;>
          simp [insertAssoc, lookupAssoc, hp, hp', ih, h, hkk]

theorem insertAssoc_of_lookup_none {m : List (String × Nat)} {k : String}
    (v : Nat) (h : lookupAssoc m k = none) :
    insertAssoc m k v = m ++ [(k, v)] := by
  induction m with
  | nil => simp [insertAssoc]
  | cons p rest ih =>
      by_cases hp : p.1 = k
      · simp [lookupAssoc, hp] at h
      · have h' : lookupAssoc rest k = none := by
          simpa [lookupAssoc, hp] using h
        simp [insertAssoc, hp, ih h']

theorem mem_of_lookupAssoc {m : List (String × Nat)} {k : String} {v : Nat}
    (h : lookupAssoc m k = some v) : (k, v) ∈ m := by
  induction m with
  | nil => simp [lookupAssoc] at h
  | cons p rest ih =>
      by_cases hp : p.1 = k
      · simp only [lookupAssoc, hp, if_pos] at h
        cases h
        rw [← hp]
        simp
      · simp only [lookupAssoc, hp, if_neg, not_false_iff] at h
        exact List.mem_cons_of_mem _ (ih h)

theorem lookupAssoc_eq_none_iff {m : List (String × Nat)} {k : String} :
    lookupAssoc m k = none ↔ k ∉ m.map Prod.fst := by
  induction m with
  | nil => simp [lookupAssoc]
  | cons p rest ih =>
      by_cases hp : p.1 = k <;> simp [lookupAssoc, hp, ih, Ne.symm, hp]

theorem lookupAssoc_isSome_of_mem {m : List (String × Nat)} {k : String}
    (h : k ∈ m.map Prod.fst) : (lookupAssoc m k).isSome := by
  rcases ho : lookupAssoc m k with _ | v
  · exact absurd (lookupAssoc_eq_none_iff.mp ho) (by simpa using h)
  · rfl

theorem lookupAssoc_mem_keys {m : List (String × Nat)} {k : String} {v : Nat}
    (h : lookupAssoc m k = some v) : k ∈ m.map Prod.fst := by
  by_contra hk
  rw [lookupAssoc_eq_none_iff.mpr hk] at h
  cases h

theorem lookupAssoc_insert_isSome {m : List (String × Nat)} {k k' : String}
    {v : Nat} (h : (lookupAssoc m k').isSome) :
    (lookupAssoc (insertAssoc m k v) k').isSome := by
  by_cases hk : k' = k
  · subst hk; rw [lookupAssoc_insertAssoc_self]; rfl
  · rwa [lookupAssoc_insertAssoc_ne _ _ hk]

theorem dependencies_satisfied_mono {t : AgentTask}
    {m m' : List (String × Nat)}
    (hm : ∀ k, (lookupAssoc m k).isSome → (lookupAssoc m' k).isSome)
    (h : dependencies_satisfied t m = true) :
    dependencies_satisfied t m' = true := by
  simp only [dependencies_satisfied, List.all_eq_true] at h ⊢
  exact fun dep hdep => hm dep (h dep hdep)

theorem nodup_eraseIdx_map_ne {α β : Type} {f : α → β} {l : List α}
    {k : Nat} {x : α} (hn : (l.map f).Nodup) (hk : l.get? k = some x)
    {y : α} (hy : y ∈ l.eraseIdx k) : f y ≠ f x := by
  induction l generalizing k with
  | nil => simp at hk
  | cons a t ih =>
      rw [List.map_cons, List.nodup_cons] at hn
      obtain ⟨hna, hnt⟩ := hn
      cases k with
      | zero =>
          cases hk
          simp only [List.eraseIdx] at hy
          intro hc
          exact hna (hc ▸ List.mem_map_of_mem f hy)
      | succ n =>
          simp only [List.get?] at hk
          simp only [List.eraseIdx] at hy
          rcases List.mem_cons.mp hy with hy | hy
          · subst hy
            intro hc
            exact hna (hc.symm ▸ List.mem_map_of_mem f (List.get?_mem hk))
          · exact ih hnt hk hy

/-! ## The heap operations permute their input

CPython's sift loops only move existing elements around and write the
saved `newitem` into the final hole, so `heappush h x` is a permutation of
`x :: h` and a successful `heappop` splits the heap into the returned item
and a permutation of the rest.  These facts drive every membership and
distinctness argument about the task queue. -/

theorem siftdownLoop_perm (sp : Nat) (ni : QItem) :
    ∀ (fuel pos : Nat) (heap : List QItem), pos ≤ fuel →
      pos < heap.length →
      (siftdownLoop sp ni fuel heap pos).Perm (heap.set pos ni) := by
  intro fuel
  induction fuel with
  | zero =>
      intro pos heap hf _
      exact List.Perm.refl _
  | succ n IH =>
      intro pos heap hf hlt
      rw [siftdownLoop]
      split
      · rename_i h
        dsimp only
        split
        · rename_i hq
          have h1 := IH ((pos - 1) / 2) (heap.set pos
            (heap.getD ((pos - 1) / 2) ⟨0, 0⟩)) (by omega)
            (by rw [List.length_set]; omega)
          refine h1.trans ?_
          have hne : pos ≠ (pos - 1) / 2 := by omega
          have h2 := set_set_perm (l := heap) (i := pos) (j := (pos - 1) / 2)
            (a := heap.getD ((pos - 1) / 2) ⟨0, 0⟩) (b := ni) hne hlt
            (by omega)
          refine h2.trans ?_
          have h3 : (heap.set pos ni).getD ((pos - 1) / 2) ⟨0, 0⟩
              = heap.getD ((pos - 1) / 2) ⟨0, 0⟩ := getD_set_ne hne
          rw [← h3, set_getD_self (by rw [List.length_set]; omega)]
        · exact List.Perm.refl _
      · exact List.Perm.refl _

theorem siftupLoop_spec (e : Nat) :
    ∀ (fuel : Nat) (heap : List QItem) (pos : Nat), e ≤ heap.length →
      (siftupLoop e fuel heap pos).1.length = heap.length ∧
      (e - pos ≤ fuel → pos < e → (siftupLoop e fuel heap pos).2 < e) ∧
      ∀ x : QItem,
        ((siftupLoop e fuel heap pos).1.set (siftupLoop e fuel heap pos).2
          x).Perm (heap.set pos x) := by
  intro fuel
  induction fuel with
  | zero =>
      intro heap pos he
      exact ⟨rfl, fun hf hp => by omega, fun x => List.Perm.refl _⟩
  | succ n IH =>
      intro heap pos he
      rw [siftupLoop]
      split
      · rename_i h
        have hpos_len : pos < heap.length := by omega
        dsimp only
        split
        · rename_i h2
          have hrp : 2 * pos + 2 < e := h2.1
          obtain ⟨l1, l2, l3⟩ := IH (heap.set pos
            (heap.getD (2 * pos + 2) ⟨0, 0⟩)) (2 * pos + 2)
            (by rw [List.length_set]; exact he)
          refine ⟨by rw [l1, List.length_set],
            fun hf _ => l2 (by omega) (by omega), fun x => ?_⟩
          refine (l3 x).trans ?_
          have hne : pos ≠ 2 * pos + 2 := by omega
          have h4 := set_set_perm (l := heap) (i := pos) (j := 2 * pos + 2)
            (a := heap.getD (2 * pos + 2) ⟨0, 0⟩) (b := x) hne hpos_len
            (by omega)
          refine h4.trans ?_
          have h5 : (heap.set pos x).getD (2 * pos + 2) ⟨0, 0⟩
              = heap.getD (2 * pos + 2) ⟨0, 0⟩ := getD_set_ne hne
          rw [← h5, set_getD_self (by rw [List.length_set]; omega)]
        · obtain ⟨l1, l2, l3⟩ := IH (heap.set pos
            (heap.getD (2 * pos + 1) ⟨0, 0⟩)) (2 * pos + 1)
            (by rw [List.length_set]; exact he)
          refine ⟨by rw [l1, List.length_set],
            fun hf _ => l2 (by omega) (by omega), fun x => ?_⟩
          refine (l3 x).trans ?_
          have hne : pos ≠ 2 * pos + 1 := by omega
          have h4 := set_set_perm (l := heap) (i := pos) (j := 2 * pos + 1)
            (a := heap.getD (2 * pos + 1) ⟨0, 0⟩) (b := x) hne hpos_len
            (by omega)
          refine h4.trans ?_
          have h5 : (heap.set pos x).getD (2 * pos + 1) ⟨0, 0⟩
              = heap.getD (2 * pos + 1) ⟨0, 0⟩ := getD_set_ne hne
          rw [← h5, set_getD_self (by rw [List.length_set]; omega)]
      · exact ⟨rfl, fun _ hh => hh, fun x => List.Perm.refl _⟩

theorem heapSiftup_perm {heap : List QItem} (h : 0 < heap.length) :
    (heapSiftup heap 0).Perm heap := by
  obtain ⟨hlen, hpos, hperm⟩ := siftupLoop_spec heap.length heap.length
    heap 0 (le_refl _)
  have h2 : (siftupLoop heap.length heap.length heap 0).2 < heap.length :=
    hpos (by omega) h
  have h3 := siftdownLoop_perm 0 (heap.getD 0 ⟨0, 0⟩) heap.length
    (siftupLoop heap.length heap.length heap 0).2
    (siftupLoop heap.length heap.length heap 0).1 (by omega)
    (by rw [hlen]; exact h2)
  refine h3.trans ?_
  refine (hperm (heap.getD 0 ⟨0, 0⟩)).trans ?_
  rw [set_getD_self h]

theorem set_append_length {α : Type} (l : List α) (x y : α) :
    (l ++ [x]).set l.length y = l ++ [y] := by
  induction l with
  | nil => rfl
  | cons a t ih => simp [ih]

theorem heappush_perm (heap : List QItem) (item : QItem) :
    (heappush heap item).Perm (item :: heap) := by
  unfold heappush
  have hlen : (heap ++ [item]).length - 1 < (heap ++ [item]).length := by
    simp
  have h1 := siftdownLoop_perm 0 item (heap ++ [item]).length
    ((heap ++ [item]).length - 1) (heap ++ [item]) (by omega) hlen
  refine h1.trans ?_
  have hidx : (heap ++ [item]).length - 1 = heap.length := by simp
  rw [hidx, set_append_length]
  exact List.perm_append_singleton item heap

theorem getD_length_sub_one {heap : List QItem} (h : heap ≠ []) :
    heap.getD (heap.length - 1) ⟨0, 0⟩ = heap.getLast h := by
  rw [List.getLast_eq_getElem, List.getD_eq_getElem]

theorem heappop_perm {heap h' : List QItem} {q : QItem}
    (hp : heappop heap = some (q, h')) : (q :: h').Perm heap := by
  cases heap with
  | nil => cases hp
  | cons a t =>
      simp only [heappop] at hp
      by_cases ht : (a :: t).dropLast.length = 0
      · rw [if_pos ht] at hp
        have ht' : t = [] := by
          simpa [List.length_dropLast] using ht
        subst ht'
        rw [Option.some.injEq, Prod.mk.injEq] at hp
        obtain ⟨h1, h2⟩ := hp
        rw [← h1, ← h2]
        exact List.Perm.refl _
      · rw [if_neg ht] at hp
        rw [Option.some.injEq, Prod.mk.injEq] at hp
        obtain ⟨h1, h2⟩ := hp
        have hne : (a :: t) ≠ [] := by simp
        have key : (a :: t).dropLast ++ [(a :: t).getD ((a :: t).length - 1) ⟨0, 0⟩]
            = a :: t := by
          rw [getD_length_sub_one hne]
          exact List.dropLast_append_getLast hne
        rw [← key]
        generalize hL : (a :: t).getD ((a :: t).length - 1) ⟨0, 0⟩ = last at h2 ⊢
        generalize hR : (a :: t).dropLast = rest at h1 h2 ht ⊢
        cases rest with
        | nil => simp at ht
        | cons r0 rt =>
            have hq : r0 = q := by simpa [List.getD] using h1
            subst hq
            have hperm1 : h'.Perm (last :: rt) := by
              rw [← h2]
              have hstep : ((r0 :: rt).set 0 last) = last :: rt := rfl
              rw [hstep]
              exact heapSiftup_perm (by simp)
            refine (List.Perm.cons r0 hperm1).trans ?_
            refine (List.Perm.swap last r0 rt).trans ?_
            exact (List.perm_append_singleton last (r0 :: rt)).symm

theorem mem_heappush_iff {heap : List QItem} {item x : QItem} :
    x ∈ heappush heap item ↔ x = item ∨ x ∈ heap := by
  rw [(heappush_perm heap item).mem_iff]
  simp

theorem mem_of_heappop_fst {heap h' : List QItem} {q : QItem}
    (hp : heappop heap = some (q, h')) : q ∈ heap :=
  (heappop_perm hp).mem_iff.mp (List.mem_cons_self _ _)

theorem mem_of_heappop_rest {heap h' : List QItem} {q x : QItem}
    (hp : heappop heap = some (q, h')) (hx : x ∈ h') : x ∈ heap :=
  (heappop_perm hp).mem_iff.mp (List.mem_cons_of_mem _ hx)

theorem heappop_obj_nodup {heap h' : List QItem} {q : QItem}
    (hp : heappop heap = some (q, h'))
    (hn : (heap.map QItem.obj).Nodup) :
    (h'.map QItem.obj).Nodup ∧ q.obj ∉ h'.map QItem.obj := by
  have hperm := (heappop_perm hp).map QItem.obj
  have := hperm.nodup_iff.mpr hn
  rw [List.map_cons, List.nodup_cons] at this
  exact ⟨this.2, this.1⟩

theorem heappush_obj_nodup {heap : List QItem} {item : QItem}
    (hn : (heap.map QItem.obj).Nodup)
    (hni : item.obj ∉ heap.map QItem.obj) :
    ((heappush heap item).map QItem.obj).Nodup := by
  have hperm := (heappush_perm heap item).map QItem.obj
  rw [hperm.nodup_iff, List.map_cons, List.nodup_cons]
  exact ⟨hni, hn⟩

/-! ## Heap ordering

`AgentTask.__lt__` orders queue entries by the numeric priority value
alone, and CPython's `heapq` maintains the binary min-heap shape on the
backing list, so every pop extracts an entry of minimum priority value
among those queued. -/

/-- The binary min-heap shape on the priority component: every non-root
entry is no smaller than its parent. -/
def IsHeap (h : List QItem) : Prop :=
  ∀ i, i < h.length → 0 < i →
    (h.getD ((i - 1) / 2) ⟨0, 0⟩).prio ≤ (h.getD i ⟨0, 0⟩).prio

/-- Invariant of `_siftdown`'s bubble-up loop, stated on the conceptual
array (the live array with `newitem` written into the hole at `pos`):
every parent/child pair is ordered except the hole's own pair, and the
hole's parent is already no larger than the hole's children. -/
def UpShape (B : List QItem) (pos : Nat) : Prop :=
  (∀ i, i < B.length → 0 < i → i ≠ pos →
    (B.getD ((i - 1) / 2) ⟨0, 0⟩).prio ≤ (B.getD i ⟨0, 0⟩).prio) ∧
  (∀ c, c < B.length → (c - 1) / 2 = pos → 0 < c →
    (B.getD ((pos - 1) / 2) ⟨0, 0⟩).prio ≤ (B.getD c ⟨0, 0⟩).prio)

/-- Invariant of `_siftup`'s descent loop on the conceptual array: every
parent/child pair is ordered except the hole's own pair and the hole's
pairs with its children, and (below the root) the hole's parent is no
larger than the hole's children. -/
def DownShape (B : List QItem) (pos : Nat) : Prop :=
  (∀ i, i < B.length → 0 < i → i ≠ pos → (i - 1) / 2 ≠ pos →
    (B.getD ((i - 1) / 2) ⟨0, 0⟩).prio ≤ (B.getD i ⟨0, 0⟩).prio) ∧
  (∀ c, c < B.length → (c - 1) / 2 = pos → 0 < c → 0 < pos →
    (B.getD ((pos - 1) / 2) ⟨0, 0⟩).prio ≤ (B.getD c ⟨0, 0⟩).prio)

/-- `_siftdown`'s loop turns the bubble-up invariant into a full heap. -/
theorem siftdownLoop_isHeap (ni : QItem) :
    ∀ (fuel pos : Nat) (heap : List QItem), pos ≤ fuel →
      pos < heap.length → UpShape (heap.set pos ni) pos →
      IsHeap (siftdownLoop 0 ni fuel heap pos) := by
  intro fuel
  induction fuel with
  | zero =>
      intro pos heap hf hlt hU
      have hp0 : pos = 0 := by omega
      subst hp0
      show IsHeap (heap.set 0 ni)
      exact fun i hi hi0 => hU.1 i hi hi0 (by omega)
  | succ n IH =>
      intro pos heap hf hlt hU
      obtain ⟨U1, U2⟩ := hU
      rw [siftdownLoop]
      split
      · rename_i hpos
        dsimp only
        have hne : (pos - 1) / 2 ≠ pos := by omega
        have hplen : (pos - 1) / 2 < heap.length := by omega
        have hBpos : (heap.set pos ni).getD pos ⟨0, 0⟩ = ni :=
          getD_set_self hlt
        have hBother : ∀ i, i ≠ pos →
            (heap.set pos ni).getD i ⟨0, 0⟩ = heap.getD i ⟨0, 0⟩ :=
          fun i h => getD_set_ne (Ne.symm h)
        split
        · rename_i hq
          have hlt2 : ni.prio < (heap.getD ((pos - 1) / 2) ⟨0, 0⟩).prio := by
            simpa [qlt] using hq
          have hB'p : ((heap.set pos (heap.getD ((pos - 1) / 2) ⟨0, 0⟩)).set
              ((pos - 1) / 2) ni).getD ((pos - 1) / 2) ⟨0, 0⟩ = ni :=
            getD_set_self (by rw [List.length_set]; exact hplen)
          have hB'pos : ((heap.set pos (heap.getD ((pos - 1) / 2) ⟨0, 0⟩)).set
              ((pos - 1) / 2) ni).getD pos ⟨0, 0⟩
              = heap.getD ((pos - 1) / 2) ⟨0, 0⟩ := by
            rw [getD_set_ne hne, getD_set_self hlt]
          have hB'other : ∀ i, i ≠ (pos - 1) / 2 → i ≠ pos →
              ((heap.set pos (heap.getD ((pos - 1) / 2) ⟨0, 0⟩)).set
                ((pos - 1) / 2) ni).getD i ⟨0, 0⟩ = heap.getD i ⟨0, 0⟩ := by
            intro i h1 h2
            rw [getD_set_ne (Ne.symm h1), getD_set_ne (Ne.symm h2)]
          refine IH ((pos - 1) / 2)
            (heap.set pos (heap.getD ((pos - 1) / 2) ⟨0, 0⟩)) (by omega)
            (by rw [List.length_set]; omega) ⟨?_, ?_⟩
          · intro i hi hi0 hip
            have hi' : i < heap.length := by simpa using hi
            by_cases hipos : i = pos
            · subst hipos
              rw [hB'p, hB'pos]
              exact le_of_lt hlt2
            · by_cases hichpos : (i - 1) / 2 = pos
              · have hinp : i ≠ (pos - 1) / 2 := by omega
                rw [hichpos, hB'pos, hB'other i hinp hipos]
                have h := U2 i (by simpa using hi') hichpos hi0
                rw [hBother _ hne, hBother i hipos] at h
                exact h
              · by_cases hsib : (i - 1) / 2 = (pos - 1) / 2
                · rw [hsib, hB'p, hB'other i hip hipos]
                  have h := U1 i (by simpa using hi') hi0 hipos
                  rw [hsib, hBother _ hne, hBother i hipos] at h
                  exact le_trans (le_of_lt hlt2) h
                · rw [hB'other _ hsib hichpos, hB'other i hip hipos]
                  have h := U1 i (by simpa using hi') hi0 hipos
                  rw [hBother _ hichpos, hBother i hipos] at h
                  exact h
          · intro c hc hcp hc0
            have hc' : c < heap.length := by simpa using hc
            have hstep : (heap.getD ((pos - 1) / 2) ⟨0, 0⟩).prio ≤
                (((heap.set pos (heap.getD ((pos - 1) / 2) ⟨0, 0⟩)).set
                  ((pos - 1) / 2) ni).getD c ⟨0, 0⟩).prio := by
              by_cases hcpos : c = pos
              · subst hcpos
                rw [hB'pos]
              · rw [hB'other c (by omega) hcpos]
                have h := U1 c (by simpa using hc') hc0 hcpos
                rw [hcp, hBother _ hne, hBother c hcpos] at h
                exact h
            by_cases hp0 : (pos - 1) / 2 = 0
            · have hgp : ((pos - 1) / 2 - 1) / 2 = (pos - 1) / 2 := by omega
              rw [hgp, hB'p]
              exact le_trans (le_of_lt hlt2) hstep
            · have hgpne1 : ((pos - 1) / 2 - 1) / 2 ≠ (pos - 1) / 2 := by
                omega
              have hgpne2 : ((pos - 1) / 2 - 1) / 2 ≠ pos := by omega
              rw [hB'other _ hgpne1 hgpne2]
              have h := U1 ((pos - 1) / 2) (by simpa using hplen) (by omega)
                hne
              rw [hBother _ hgpne2, hBother _ hne] at h
              exact le_trans h hstep
        · rename_i hq
          intro i hi hi0
          by_cases hipos : i = pos
          · have hge : (heap.getD ((pos - 1) / 2) ⟨0, 0⟩).prio ≤ ni.prio := by
              simp only [qlt, decide_eq_true_eq] at hq
              omega
            rw [hipos, hBother _ hne, hBpos]
            exact hge
          · exact U1 i hi hi0 hipos
      · rename_i hpos
        have hp0 : pos = 0 := by omega
        subst hp0
        intro i hi hi0
        exact U1 i hi hi0 (by omega)

/-- One descent step of `_siftup` preserves the descent invariant: the
hole moves to a child `c` that is no larger than its sibling. -/
theorem downShape_step {heap : List QItem} {pos c : Nat} (ni : QItem)
    (hlen : pos < heap.length) (hclen : c < heap.length)
    (hcp : (c - 1) / 2 = pos) (hc0 : 0 < c)
    (hmin : ∀ o, o < heap.length → (o - 1) / 2 = pos → 0 < o → o ≠ c →
      (heap.getD c ⟨0, 0⟩).prio ≤ (heap.getD o ⟨0, 0⟩).prio)
    (hD : DownShape (heap.set pos ni) pos) :
    DownShape ((heap.set pos (heap.getD c ⟨0, 0⟩)).set c ni) c := by
  obtain ⟨D1, D2⟩ := hD
  have hcpos : pos < c := by omega
  have hnecp : c ≠ pos := by omega
  have hB'pos : ((heap.set pos (heap.getD c ⟨0, 0⟩)).set c ni).getD pos
      ⟨0, 0⟩ = heap.getD c ⟨0, 0⟩ := by
    rw [getD_set_ne hnecp, getD_set_self hlen]
  have hB'other : ∀ i, i ≠ pos → i ≠ c →
      ((heap.set pos (heap.getD c ⟨0, 0⟩)).set c ni).getD i ⟨0, 0⟩
        = heap.getD i ⟨0, 0⟩ := by
    intro i h1 h2
    rw [getD_set_ne (Ne.symm h2), getD_set_ne (Ne.symm h1)]
  have hBother : ∀ i, i ≠ pos →
      (heap.set pos ni).getD i ⟨0, 0⟩ = heap.getD i ⟨0, 0⟩ :=
    fun i h => getD_set_ne (Ne.symm h)
  refine ⟨fun i hi hi0 hic hichild => ?_, fun g hg hgc hg0 hc0g => ?_⟩
  · have hi' : i < heap.length := by simpa using hi
    by_cases hipos : i = pos
    · have hgp1 : (pos - 1) / 2 ≠ pos := by omega
      have hgp2 : (pos - 1) / 2 ≠ c := by omega
      rw [hipos, hB'other _ hgp1 hgp2, hB'pos]
      have h := D2 c (by simpa using hclen) hcp hc0 (by omega)
      rw [hBother _ hgp1, hBother c hnecp] at h
      exact h
    · by_cases hichpos : (i - 1) / 2 = pos
      · rw [hichpos, hB'pos, hB'other i hipos hic]
        exact hmin i hi' hichpos hi0 hic
      · rw [hB'other _ hichpos hichild, hB'other i hipos hic]
        have h := D1 i (by simpa using hi') hi0 hipos hichpos
        rw [hBother _ hichpos, hBother i hipos] at h
        exact h
  · have hg' : g < heap.length := by simpa using hg
    have hgpos : g ≠ pos := by omega
    have hgc' : g ≠ c := by omega
    have hgparpos : (g - 1) / 2 ≠ pos := by omega
    rw [hcp, hB'pos, hB'other g hgpos hgc']
    have h := D1 g (by simpa using hg') hg0 hgpos hgparpos
    rw [hgc] at h
    rw [hBother _ hnecp, hBother g hgpos] at h
    exact h

/-- `_siftup`'s descent loop carries the descent invariant to a leaf,
where it becomes the bubble-up invariant for the closing `_siftdown`. -/
theorem siftupLoop_shape (e : Nat) (ni : QItem) :
    ∀ (fuel : Nat) (heap : List QItem) (pos : Nat), e = heap.length →
      pos < e → e ≤ pos + fuel →
      DownShape (heap.set pos ni) pos →
      UpShape ((siftupLoop e fuel heap pos).1.set
        (siftupLoop e fuel heap pos).2 ni) (siftupLoop e fuel heap pos).2 := by
  intro fuel
  induction fuel with
  | zero =>
      intro heap pos he hpe hef hD
      exact absurd hpe (by omega)
  | succ n IH =>
      intro heap pos he hpe hef hD
      rw [siftupLoop]
      split
      · rename_i hch
        dsimp only
        split
        · rename_i hcond
          obtain ⟨hr1, hr2⟩ := hcond
          refine IH (heap.set pos (heap.getD (2 * pos + 1 + 1) ⟨0, 0⟩))
            (2 * pos + 1 + 1) (by rw [List.length_set]; exact he)
            (by omega) (by omega)
            (downShape_step ni (by omega) (by omega) (by omega) (by omega)
              ?_ hD)
          intro o holt hop ho0 honec
          have ho : o = 2 * pos + 1 := by omega
          subst ho
          simp only [qlt, decide_eq_false_iff_not] at hr2
          omega
        · rename_i hcond
          refine IH (heap.set pos (heap.getD (2 * pos + 1) ⟨0, 0⟩))
            (2 * pos + 1) (by rw [List.length_set]; exact he)
            (by omega) (by omega)
            (downShape_step ni (by omega) (by omega) (by omega) (by omega)
              ?_ hD)
          intro o holt hop ho0 honec
          have ho : o = 2 * pos + 1 + 1 := by omega
          subst ho
          have hq : qlt (heap.getD (2 * pos + 1) ⟨0, 0⟩)
              (heap.getD (2 * pos + 1 + 1) ⟨0, 0⟩) = true := by
            cases hq0 : qlt (heap.getD (2 * pos + 1) ⟨0, 0⟩)
                (heap.getD (2 * pos + 1 + 1) ⟨0, 0⟩) with
            | false => exact absurd ⟨by omega, hq0⟩ hcond
            | true => rfl
          simp only [qlt, decide_eq_true_eq] at hq
          omega
      · rename_i hch
        show UpShape (heap.set pos ni) pos
        refine ⟨fun i hi hi0 hip => ?_, fun c hc hcp hc0 => ?_⟩
        · have hi' : i < heap.length := by simpa using hi
          by_cases hichild : (i - 1) / 2 = pos
          · omega
          · exact hD.1 i hi hi0 hip hichild
        · have hc' : c < heap.length := by simpa using hc
          omega

/-- CPython `_siftup` restores the heap shape after the root is replaced
(the descent invariant at the root covers exactly that state). -/
theorem heapSiftup_isHeap {heap : List QItem} (h0 : 0 < heap.length)
    (hD : DownShape heap 0) : IsHeap (heapSiftup heap 0) := by
  obtain ⟨hlen, hpos, _⟩ := siftupLoop_spec heap.length heap.length heap 0
    (le_refl _)
  have h2 : (siftupLoop heap.length heap.length heap 0).2 < heap.length :=
    hpos (by omega) h0
  have hU := siftupLoop_shape heap.length (heap.getD 0 ⟨0, 0⟩) heap.length
    heap 0 rfl h0 (by omega) (by rw [set_getD_self h0]; exact hD)
  exact siftdownLoop_isHeap (heap.getD 0 ⟨0, 0⟩) heap.length
    (siftupLoop heap.length heap.length heap 0).2
    (siftupLoop heap.length heap.length heap 0).1 (by omega)
    (by rw [hlen]; exact h2) hU

theorem getD_append_lt {α : Type} (l l' : List α) (d : α) (i : Nat)
    (h : i < l.length) : (l ++ l').getD i d = l.getD i d := by
  induction l generalizing i with
  | nil => simp at h
  | cons a t ih =>
      cases i with
      | zero => rfl
      | succ m => exact ih m (by simpa using h)

/-- `heappush` preserves the heap shape: the appended item bubbles up. -/
theorem heappush_isHeap {heap : List QItem} (hH : IsHeap heap)
    (item : QItem) : IsHeap (heappush heap item) := by
  have hlen1 : (heap ++ [item]).length = heap.length + 1 := by simp
  have hU : UpShape ((heap ++ [item]).set ((heap ++ [item]).length - 1)
      item) ((heap ++ [item]).length - 1) := by
    have hidx : (heap ++ [item]).length - 1 = heap.length := by omega
    rw [hidx, set_append_length]
    refine ⟨fun i hi hi0 hip => ?_, fun c hc hcp hc0 => ?_⟩
    · have hilen : i < heap.length + 1 := by simpa using hi
      have hi' : i < heap.length := by omega
      have hp' : (i - 1) / 2 < heap.length := by omega
      rw [getD_append_lt heap [item] ⟨0, 0⟩ i hi',
        getD_append_lt heap [item] ⟨0, 0⟩ _ hp']
      exact hH i hi' hi0
    · have hclen : c < heap.length + 1 := by simpa using hc
      omega
  exact siftdownLoop_isHeap item (heap ++ [item]).length
    ((heap ++ [item]).length - 1) (heap ++ [item]) (by omega) (by omega) hU

theorem getD_dropLast {α : Type} (l : List α) (d : α) (i : Nat)
    (h : i < l.dropLast.length) : l.dropLast.getD i d = l.getD i d := by
  induction l generalizing i with
  | nil => simp at h
  | cons a t ih =>
      cases t with
      | nil => simp at h
      | cons b u =>
          cases i with
          | zero => rfl
          | succ m =>
              have hb : m < (b :: u).dropLast.length := by
                rw [List.length_dropLast] at h ⊢
                simp only [List.length_cons] at h ⊢
                omega
              exact ih m hb

/-- `heappop` hands back the root of the backing list. -/
theorem heappop_fst_eq_root {heap h' : List QItem} {q : QItem}
    (hp : heappop heap = some (q, h')) : q = heap.getD 0 ⟨0, 0⟩ := by
  cases heap with
  | nil => cases hp
  | cons a t =>
      simp only [heappop] at hp
      by_cases ht : (a :: t).dropLast.length = 0
      · rw [if_pos ht] at hp
        have ht' : t = [] := by simpa [List.length_dropLast] using ht
        subst ht'
        rw [Option.some.injEq, Prod.mk.injEq] at hp
        obtain ⟨h1, _⟩ := hp
        rw [← h1]
        rfl
      · rw [if_neg ht] at hp
        rw [Option.some.injEq, Prod.mk.injEq] at hp
        obtain ⟨h1, _⟩ := hp
        rw [← h1]
        exact getD_dropLast (a :: t) ⟨0, 0⟩ 0 (by omega)

/-- In a heap, the root is a minimum: induction along the parent chain. -/
theorem isHeap_root_min {heap : List QItem} (hH : IsHeap heap) :
    ∀ i, i < heap.length →
      (heap.getD 0 ⟨0, 0⟩).prio ≤ (heap.getD i ⟨0, 0⟩).prio := by
  have key : ∀ n i, i ≤ n → i < heap.length →
      (heap.getD 0 ⟨0, 0⟩).prio ≤ (heap.getD i ⟨0, 0⟩).prio := by
    intro n
    induction n with
    | zero =>
        intro i hi _
        have h0 : i = 0 := by omega
        subst h0
        exact le_refl _
    | succ m IH =>
        intro i hi hlen
        cases Nat.eq_zero_or_pos i with
        | inl h0 => subst h0; exact le_refl _
        | inr hpos =>
            exact le_trans (IH ((i - 1) / 2) (by omega) (by omega))
              (hH i hlen hpos)
  intro i hi
  exact key i i (le_refl _) hi

/-- `heappop` preserves the heap shape on the remaining entries. -/
theorem heappop_isHeap {heap h' : List QItem} {q : QItem}
    (hH : IsHeap heap) (hp : heappop heap = some (q, h')) : IsHeap h' := by
  cases heap with
  | nil => cases hp
  | cons a t =>
      simp only [heappop] at hp
      by_cases ht : (a :: t).dropLast.length = 0
      · rw [if_pos ht] at hp
        rw [Option.some.injEq, Prod.mk.injEq] at hp
        obtain ⟨_, h2⟩ := hp
        rw [← h2]
        intro i hi hi0
        rw [ht] at hi
        omega
      · rw [if_neg ht] at hp
        rw [Option.some.injEq, Prod.mk.injEq] at hp
        obtain ⟨_, h2⟩ := hp
        rw [← h2]
        apply heapSiftup_isHeap
        · rw [List.length_set]
          omega
        · refine ⟨fun i hi hi0 hip hichild => ?_, fun c hc hcp hc0 hpos0 => ?_⟩
          · have hlen : i < (a :: t).dropLast.length := by simpa using hi
            have hplen : (i - 1) / 2 < (a :: t).dropLast.length := by omega
            rw [getD_set_ne (Ne.symm hip), getD_set_ne (Ne.symm hichild),
              getD_dropLast _ _ _ hlen, getD_dropLast _ _ _ hplen]
            have hful : i < (a :: t).length := by
              rw [List.length_dropLast] at hlen
              omega
            exact hH i hful hi0
          · omega

/-- `heappop`'s returned entry has minimum priority among the heap. -/
theorem heappop_min {heap h' : List QItem} {q : QItem} (hH : IsHeap heap)
    (hp : heappop heap = some (q, h')) : ∀ x ∈ heap, q.prio ≤ x.prio := by
  intro x hx
  obtain ⟨i, hi, hxe⟩ := List.mem_iff_getElem.mp hx
  have hgd : heap.getD i ⟨0, 0⟩ = x := by
    rw [List.getD_eq_getElem _ _ hi]
    exact hxe
  rw [heappop_fst_eq_root hp, ← hgd]
  exact isHeap_root_min hH i hi

/-- The dispatch loop preserves the heap shape (pops and re-pushes). -/
theorem process_isHeap (now : Nat) :
    ∀ (fuel : Nat) (s : OrchState), IsHeap s.heap →
      IsHeap (process_task_queue now fuel s).heap := by
  intro fuel
  induction fuel with
  | zero => intro s hs; exact hs
  | succ n IH =>
      intro s hs
      rw [process_task_queue]
      split
      · exact hs
      · cases hpop : heappop s.heap with
        | none => exact hs
        | some pr =>
            obtain ⟨item, heap'⟩ := pr
            have hs' : IsHeap heap' := heappop_isHeap hs hpop
            dsimp only
            split
            · exact IH _ (heappush_isHeap hs' item)
            · cases hfind : find_available_agent s.agents
                  (s.store.getD item.obj dummyTask).agent_type with
              | some a => exact IH _ hs'
              | none => exact heappush_isHeap hs' item

theorem run_pending_heap_eq (s : OrchState) (k now : Nat) :
    (run_pending_exec s k now).heap = s.heap := by
  cases hk : s.pendingExec.get? k with
  | none => rw [run_pending_exec, hk]
  | some pa =>
      obtain ⟨j, a⟩ := pa
      rw [run_pending_exec, hk]
      dsimp only
      rw [execute_task]
      cases execOutcome (s.agents.getD a dummyAgent).agent_type
          (s.store.getD j dummyTask).task_type <;> rfl

/-! ## Characterisation of the agent scan -/

theorem agentAvailable_iff {a : AgentInfo} {t : AgentType} :
    agentAvailable a t = true ↔
      a.agent_type = t ∧ a.is_active = true ∧ a.load_factor < 80 := by
  simp [agentAvailable, and_assoc]

theorem find_available_agent_some {agents : List AgentInfo} {t : AgentType}
    {i : Nat} (h : find_available_agent agents t = some i) :
    i < agents.length ∧ agentAvailable (agents.getD i dummyAgent) t = true ∧
      ∀ j, j < i → agentAvailable (agents.getD j dummyAgent) t = false := by
  induction agents generalizing i with
  | nil => cases h
  | cons a rest ih =>
      by_cases ha : agentAvailable a t
      · rw [find_available_agent, if_pos ha] at h
        cases h
        exact ⟨by simp, by simpa using ha, by omega⟩
      · rw [find_available_agent, if_neg ha] at h
        cases hr : find_available_agent rest t with
        | none => rw [hr] at h; cases h
        | some i' =>
            rw [hr, Option.map_some', Option.some.injEq] at h
            obtain ⟨h1, h2, h3⟩ := ih hr
            cases h
            refine ⟨by simpa using h1, by simpa using h2, ?_⟩
            intro j hj
            cases j with
            | zero => simpa using ha
            | succ j' => exact h3 j' (by omega)

theorem find_available_agent_none {agents : List AgentInfo} {t : AgentType}
    (h : find_available_agent agents t = none) :
    ∀ j, j < agents.length →
      agentAvailable (agents.getD j dummyAgent) t = false := by
  induction agents with
  | nil => intro j hj; simp at hj
  | cons a rest ih =>
      by_cases ha : agentAvailable a t
      · rw [find_available_agent, if_pos ha] at h
        cases h
      · rw [find_available_agent, if_neg ha] at h
        intro j hj
        cases j with
        | zero => simpa using ha
        | succ j' =>
            have hr : find_available_agent rest t = none := by
              cases hr : find_available_agent rest t with
              | none => rfl
              | some i' => rw [hr] at h; cases h
            exact ih hr j' (by simpa using hj)

/-! ## The system invariant -/

/-- The store entry a container index refers to. -/
def taskAt (s : OrchState) (j : Nat) : AgentTask := s.store.getD j dummyTask

/-- The registry entry an agent index refers to. -/
def agentAt (s : OrchState) (a : Nat) : AgentInfo := s.agents.getD a dummyAgent

/-- The state invariant maintained by every operation of the orchestrator:
load factors stay in [0, 100]; queue entries reference distinct PENDING
store objects; worker-pool entries reference distinct RUNNING objects and
real agents; the `tasks` dictionary is a key-unique index of the store;
the terminal dictionaries hold exactly the key/index pairs of terminal
objects; RUNNING tasks have all dependencies in `completed_tasks`;
dispatched pairs are type-matched; no task is ever CANCELLED. -/
structure Inv (s : OrchState) : Prop where
  loadLo : ∀ a ∈ s.agents, 0 ≤ a.load_factor
  loadHi : ∀ a ∈ s.agents, a.load_factor ≤ 100
  heapObj : ∀ q ∈ s.heap, q.obj < s.store.length
  heapNodup : (s.heap.map QItem.obj).Nodup
  heapPending : ∀ q ∈ s.heap, (taskAt s q.obj).status = .pending
  pendBounds : ∀ p ∈ s.pendingExec, p.1 < s.store.length ∧ p.2 < s.agents.length
  pendRun : ∀ p ∈ s.pendingExec, (taskAt s p.1).status = .running
  pendNodup : (s.pendingExec.map Prod.fst).Nodup
  tasksRange : ∀ p ∈ s.tasks, p.2 < s.store.length ∧ (taskAt s p.2).task_id = p.1
  tasksNodup : (s.tasks.map Prod.fst).Nodup
  storeIds : ∀ j, j < s.store.length →
    lookupAssoc s.tasks (taskAt s j).task_id = some j
  compMap : ∀ p ∈ s.completed_tasks, p.2 < s.store.length ∧
    (taskAt s p.2).status = .completed ∧ (taskAt s p.2).task_id = p.1
  compNodup : (s.completed_tasks.map Prod.fst).Nodup
  compConv : ∀ j, j < s.store.length → (taskAt s j).status = .completed →
    lookupAssoc s.completed_tasks (taskAt s j).task_id = some j
  failMap : ∀ p ∈ s.failed_tasks, p.2 < s.store.length ∧
    (taskAt s p.2).status = .failed ∧ (taskAt s p.2).task_id = p.1
  failNodup : (s.failed_tasks.map Prod.fst).Nodup
  failConv : ∀ j, j < s.store.length → (taskAt s j).status = .failed →
    lookupAssoc s.failed_tasks (taskAt s j).task_id = some j
  runDeps : ∀ j, j < s.store.length → (taskAt s j).status = .running →
    dependencies_satisfied (taskAt s j) s.completed_tasks = true
  dispatchOk : ∀ p ∈ s.dispatchLog, p.1 < s.store.length ∧
    p.2 < s.agents.length ∧ (taskAt s p.1).agent_type = (agentAt s p.2).agent_type
  noCancel : ∀ j, j < s.store.length → (taskAt s j).status ≠ .cancelled

theorem inv_init : Inv initState := by
  constructor <;> simp [initState, taskAt, agentAt]

theorem getD_map_lt {α β : Type} {l : List α} {f : α → β} {i : Nat}
    (h : i < l.length) (d : β) (d' : α) :
    (l.map f).getD i d = f (l.getD i d') := by
  rw [List.getD_eq_getElem _ _ (by simpa using h), List.getD_eq_getElem _ _ h,
    List.getElem_map]

theorem inv_register {s : OrchState} (hI : Inv s) (agent : AgentInfo)
    (hload : agent.load_factor = 0) (hact : agent.is_active = true) :
    Inv (register_agent s agent) := by
  constructor
  case loadLo =>
      intro a ha
      rcases List.mem_append.mp ha with ha | ha
      · exact hI.loadLo a ha
      · simp only [List.mem_singleton] at ha
        rw [ha, hload]
  case loadHi =>
      intro a ha
      rcases List.mem_append.mp ha with ha | ha
      · exact hI.loadHi a ha
      · simp only [List.mem_singleton] at ha
        rw [ha, hload]
        norm_num
  case heapObj => exact hI.heapObj
  case heapNodup => exact hI.heapNodup
  case heapPending => exact hI.heapPending
  case pendBounds =>
      intro p hp
      obtain ⟨hp1, hp2⟩ := hI.pendBounds p hp
      exact ⟨hp1, by simp only [register_agent, List.length_append]; omega⟩
  case pendRun => exact hI.pendRun
  case pendNodup => exact hI.pendNodup
  case tasksRange => exact hI.tasksRange
  case tasksNodup => exact hI.tasksNodup
  case storeIds => exact hI.storeIds
  case compMap => exact hI.compMap
  case compNodup => exact hI.compNodup
  case compConv => exact hI.compConv
  case failMap => exact hI.failMap
  case failNodup => exact hI.failNodup
  case failConv => exact hI.failConv
  case runDeps => exact hI.runDeps
  case dispatchOk =>
      intro p hp
      obtain ⟨hp1, hp2, hp3⟩ := hI.dispatchOk p hp
      refine ⟨hp1, ?_, ?_⟩
      · simp only [register_agent, List.length_append]
        omega
      · rw [show agentAt (register_agent s agent) p.2
            = agentAt s p.2 from List.getD_append _ _ _ _ hp2]
        exact hp3
  case noCancel => exact hI.noCancel

theorem inv_sweep {s : OrchState} (hI : Inv s) (cfg : OrchestratorConfig)
    (now : Nat) : Inv (agent_monitor_sweep cfg s now) := by
  set f : AgentInfo → AgentInfo := fun agent =>
    if now - agent.last_heartbeat > cfg.heartbeat_timeout then
      { agent with is_active := false }
    else agent with hf
  have hfl : ∀ ag : AgentInfo, (f ag).load_factor = ag.load_factor := by
    intro ag
    rw [hf]
    dsimp only
    split <;> rfl
  have hft : ∀ ag : AgentInfo, (f ag).agent_type = ag.agent_type := by
    intro ag
    rw [hf]
    dsimp only
    split <;> rfl
  constructor
  case loadLo =>
      intro a ha
      obtain ⟨b, hb, rfl⟩ := List.mem_map.mp ha
      rw [hfl]
      exact hI.loadLo b hb
  case loadHi =>
      intro a ha
      obtain ⟨b, hb, rfl⟩ := List.mem_map.mp ha
      rw [hfl]
      exact hI.loadHi b hb
  case heapObj => exact hI.heapObj
  case heapNodup => exact hI.heapNodup
  case heapPending => exact hI.heapPending
  case pendBounds =>
      intro p hp
      obtain ⟨hp1, hp2⟩ := hI.pendBounds p hp
      exact ⟨hp1, by simpa [agent_monitor_sweep] using hp2⟩
  case pendRun => exact hI.pendRun
  case pendNodup => exact hI.pendNodup
  case tasksRange => exact hI.tasksRange
  case tasksNodup => exact hI.tasksNodup
  case storeIds => exact hI.storeIds
  case compMap => exact hI.compMap
  case compNodup => exact hI.compNodup
  case compConv => exact hI.compConv
  case failMap => exact hI.failMap
  case failNodup => exact hI.failNodup
  case failConv => exact hI.failConv
  case runDeps => exact hI.runDeps
  case dispatchOk =>
      intro p hp
      obtain ⟨hp1, hp2, hp3⟩ := hI.dispatchOk p hp
      refine ⟨hp1, by simpa [agent_monitor_sweep] using hp2, ?_⟩
      have : agentAt (agent_monitor_sweep cfg s now) p.2 = f (agentAt s p.2) := by
        simp only [agent_monitor_sweep, agentAt]
        exact getD_map_lt hp2 _ _
      rw [this, hft]
      exact hp3
  case noCancel => exact hI.noCancel

theorem inv_heartbeat {s : OrchState} (hI : Inv s) (a now : Nat) :
    Inv (heartbeat_signal s a now) := by
  by_cases ha : a < s.agents.length
  · obtain ⟨ag, hag⟩ : ∃ ag : AgentInfo, ag = { s.agents.getD a dummyAgent with
      is_active := true, last_heartbeat := now } := ⟨_, rfl⟩
    have hs : heartbeat_signal s a now = { s with agents := s.agents.set a ag } := by
      simp [heartbeat_signal, ha, hag]
    rw [hs]
    have hmem : s.agents.getD a dummyAgent ∈ s.agents := mem_getD ha
    have hagl : ag.load_factor = (s.agents.getD a dummyAgent).load_factor := by
      rw [hag]
    have hagt : ag.agent_type = (s.agents.getD a dummyAgent).agent_type := by
      rw [hag]
    constructor
    ·
        intro b hb
        rcases mem_of_mem_set hb with hb | hb
        · exact hI.loadLo b hb
        · rw [hb, hagl]
          exact hI.loadLo _ hmem
    ·
        intro b hb
        rcases mem_of_mem_set hb with hb | hb
        · exact hI.loadHi b hb
        · rw [hb, hagl]
          exact hI.loadHi _ hmem
    · exact hI.heapObj
    · exact hI.heapNodup
    · exact hI.heapPending
    ·
        intro p hp
        obtain ⟨hp1, hp2⟩ := hI.pendBounds p hp
        exact ⟨hp1, by simpa using hp2⟩
    · exact hI.pendRun
    · exact hI.pendNodup
    · exact hI.tasksRange
    · exact hI.tasksNodup
    · exact hI.storeIds
    · exact hI.compMap
    · exact hI.compNodup
    · exact hI.compConv
    · exact hI.failMap
    · exact hI.failNodup
    · exact hI.failConv
    · exact hI.runDeps
    ·
        intro p hp
        obtain ⟨hp1, hp2, hp3⟩ := hI.dispatchOk p hp
        refine ⟨hp1, by simpa using hp2, ?_⟩
        show (taskAt s p.1).agent_type = _
        by_cases hpa : a = p.2
        · subst hpa
          have he : (s.agents.set p.2 ag).getD p.2 dummyAgent = ag :=
            getD_set_self ha
          simp only [agentAt, he, hagt]
          exact hp3
        · have he : (s.agents.set a ag).getD p.2 dummyAgent
              = s.agents.getD p.2 dummyAgent := getD_set_ne hpa
          simp only [agentAt, he]
          exact hp3
    · exact hI.noCancel
  · have hs : heartbeat_signal s a now = s := by
      simp [heartbeat_signal, ha]
    rw [hs]
    exact hI

theorem submit_task_eq (s : OrchState) (task : AgentTask) :
    submit_task s task = { s with
      store := s.store ++ [task]
      tasks := insertAssoc s.tasks task.task_id s.store.length
      heap := heappush s.heap ⟨task.priority.value, s.store.length⟩ } := by
  have hg : (s.store ++ [task]).getD s.store.length dummyTask = task := by
    rw [List.getD_append_right _ _ _ _ (le_refl _)]
    simp
  simp [submit_task, submit_task_obj, hg]

theorem inv_submit {s : OrchState} (hI : Inv s) (task : AgentTask)
    (hst : task.status = .pending)
    (hfresh : lookupAssoc s.tasks task.task_id = none) :
    Inv (submit_task s task) := by
  rw [submit_task_eq]
  have hT : ∀ j, j < s.store.length →
      (s.store ++ [task]).getD j dummyTask = s.store.getD j dummyTask :=
    fun j hj => List.getD_append _ _ _ _ hj
  have hTn : (s.store ++ [task]).getD s.store.length dummyTask = task := by
    rw [List.getD_append_right _ _ _ _ (le_refl _)]
    simp
  have hins : insertAssoc s.tasks task.task_id s.store.length
      = s.tasks ++ [(task.task_id, s.store.length)] :=
    insertAssoc_of_lookup_none _ hfresh
  have hkeys : task.task_id ∉ s.tasks.map Prod.fst :=
    lookupAssoc_eq_none_iff.mp hfresh
  have hnewobj : (⟨task.priority.value, s.store.length⟩ : QItem).obj
      ∉ s.heap.map QItem.obj := by
    intro hmem
    obtain ⟨q, hq, hqo⟩ := List.mem_map.mp hmem
    have := hI.heapObj q hq
    simp only at hqo
    omega
  constructor
  · exact hI.loadLo
  · exact hI.loadHi
  · intro q hq
    rcases mem_heappush_iff.mp hq with hq | hq
    · rw [hq]
      simp
    · have := hI.heapObj q hq
      simp only [List.length_append, List.length_singleton]
      omega
  · exact heappush_obj_nodup hI.heapNodup hnewobj
  · intro q hq
    rcases mem_heappush_iff.mp hq with hq | hq
    · rw [hq]
      show ((s.store ++ [task]).getD s.store.length dummyTask).status = _
      rw [hTn, hst]
    · have hlt := hI.heapObj q hq
      show ((s.store ++ [task]).getD q.obj dummyTask).status = _
      rw [hT q.obj hlt]
      exact hI.heapPending q hq
  · intro p hp
    obtain ⟨h1, h2⟩ := hI.pendBounds p hp
    refine ⟨?_, h2⟩
    simp only [List.length_append, List.length_singleton]
    omega
  · intro p hp
    have h1 := (hI.pendBounds p hp).1
    show ((s.store ++ [task]).getD p.1 dummyTask).status = _
    rw [hT p.1 h1]
    exact hI.pendRun p hp
  · exact hI.pendNodup
  · intro p hp
    rw [hins] at hp
    rcases List.mem_append.mp hp with hp | hp
    · obtain ⟨h1, h2⟩ := hI.tasksRange p hp
      refine ⟨by simp only [List.length_append, List.length_singleton]; omega, ?_⟩
      show ((s.store ++ [task]).getD p.2 dummyTask).task_id = _
      rw [hT p.2 h1]
      exact h2
    · simp only [List.mem_singleton] at hp
      rw [hp]
      refine ⟨by simp, ?_⟩
      show ((s.store ++ [task]).getD s.store.length dummyTask).task_id = _
      rw [hTn]
  · rw [hins, List.map_append, List.map_cons, List.map_nil]
    have hperm : ((s.tasks.map Prod.fst) ++ [task.task_id]).Perm
        (task.task_id :: s.tasks.map Prod.fst) :=
      List.perm_append_singleton _ _
    rw [hperm.nodup_iff, List.nodup_cons]
    exact ⟨hkeys, hI.tasksNodup⟩
  · intro j hj
    simp only [List.length_append, List.length_singleton] at hj
    by_cases hjl : j < s.store.length
    · show lookupAssoc _ ((s.store ++ [task]).getD j dummyTask).task_id = _
      rw [hT j hjl]
      have hne : (s.store.getD j dummyTask).task_id ≠ task.task_id := by
        intro hc
        have hsi := hI.storeIds j hjl
        simp only [taskAt] at hsi
        rw [hc] at hsi
        rw [hfresh] at hsi
        cases hsi
      rw [lookupAssoc_insertAssoc_ne _ _ hne]
      exact hI.storeIds j hjl
    · have hje : j = s.store.length := by omega
      subst hje
      show lookupAssoc _ ((s.store ++ [task]).getD s.store.length
        dummyTask).task_id = _
      rw [hTn]
      exact lookupAssoc_insertAssoc_self _ _ _
  · intro p hp
    obtain ⟨h1, h2, h3⟩ := hI.compMap p hp
    refine ⟨by simp only [List.length_append, List.length_singleton]; omega,
      ?_, ?_⟩
    · show ((s.store ++ [task]).getD p.2 dummyTask).status = _
      rw [hT p.2 h1]
      exact h2
    · show ((s.store ++ [task]).getD p.2 dummyTask).task_id = _
      rw [hT p.2 h1]
      exact h3
  · exact hI.compNodup
  · intro j hj hs
    simp only [List.length_append, List.length_singleton] at hj
    by_cases hjl : j < s.store.length
    · show lookupAssoc _ ((s.store ++ [task]).getD j dummyTask).task_id = _
      rw [hT j hjl]
      refine hI.compConv j hjl ?_
      have : taskAt { s with
          store := s.store ++ [task]
          tasks := insertAssoc s.tasks task.task_id s.store.length
          heap := heappush s.heap ⟨task.priority.value, s.store.length⟩ } j
          = s.store.getD j dummyTask := hT j hjl
      rw [this] at hs
      exact hs
    · have hje : j = s.store.length := by omega
      subst hje
      have : taskAt { s with
          store := s.store ++ [task]
          tasks := insertAssoc s.tasks task.task_id s.store.length
          heap := heappush s.heap ⟨task.priority.value, s.store.length⟩ }
          s.store.length = task := hTn
      rw [this, hst] at hs
      cases hs
  · intro p hp
    obtain ⟨h1, h2, h3⟩ := hI.failMap p hp
    refine ⟨by simp only [List.length_append, List.length_singleton]; omega,
      ?_, ?_⟩
    · show ((s.store ++ [task]).getD p.2 dummyTask).status = _
      rw [hT p.2 h1]
      exact h2
    · show ((s.store ++ [task]).getD p.2 dummyTask).task_id = _
      rw [hT p.2 h1]
      exact h3
  · exact hI.failNodup
  · intro j hj hs
    simp only [List.length_append, List.length_singleton] at hj
    by_cases hjl : j < s.store.length
    · show lookupAssoc _ ((s.store ++ [task]).getD j dummyTask).task_id = _
      rw [hT j hjl]
      refine hI.failConv j hjl ?_
      have : taskAt { s with
          store := s.store ++ [task]
          tasks := insertAssoc s.tasks task.task_id s.store.length
          heap := heappush s.heap ⟨task.priority.value, s.store.length⟩ } j
          = s.store.getD j dummyTask := hT j hjl
      rw [this] at hs
      exact hs
    · have hje : j = s.store.length := by omega
      subst hje
      have : taskAt { s with
          store := s.store ++ [task]
          tasks := insertAssoc s.tasks task.task_id s.store.length
          heap := heappush s.heap ⟨task.priority.value, s.store.length⟩ }
          s.store.length = task := hTn
      rw [this, hst] at hs
      cases hs
  · intro j hj hs
    simp only [List.length_append, List.length_singleton] at hj
    by_cases hjl : j < s.store.length
    · have heq : taskAt { s with
          store := s.store ++ [task]
          tasks := insertAssoc s.tasks task.task_id s.store.length
          heap := heappush s.heap ⟨task.priority.value, s.store.length⟩ } j
          = s.store.getD j dummyTask := hT j hjl
      rw [heq] at hs ⊢
      exact hI.runDeps j hjl hs
    · have hje : j = s.store.length := by omega
      subst hje
      have heq : taskAt { s with
          store := s.store ++ [task]
          tasks := insertAssoc s.tasks task.task_id s.store.length
          heap := heappush s.heap ⟨task.priority.value, s.store.length⟩ }
          s.store.length = task := hTn
      rw [heq, hst] at hs
      cases hs
  · intro p hp
    obtain ⟨h1, h2, h3⟩ := hI.dispatchOk p hp
    refine ⟨by simp only [List.length_append, List.length_singleton]; omega,
      h2, ?_⟩
    show ((s.store ++ [task]).getD p.1 dummyTask).agent_type = _
    rw [hT p.1 h1]
    exact h3
  · intro j hj
    simp only [List.length_append, List.length_singleton] at hj
    by_cases hjl : j < s.store.length
    · have heq : taskAt { s with
          store := s.store ++ [task]
          tasks := insertAssoc s.tasks task.task_id s.store.length
          heap := heappush s.heap ⟨task.priority.value, s.store.length⟩ } j
          = s.store.getD j dummyTask := hT j hjl
      rw [heq]
      exact hI.noCancel j hjl
    · have hje : j = s.store.length := by omega
      subst hje
      have heq : taskAt { s with
          store := s.store ++ [task]
          tasks := insertAssoc s.tasks task.task_id s.store.length
          heap := heappush s.heap ⟨task.priority.value, s.store.length⟩ }
          s.store.length = task := hTn
      rw [heq, hst]
      intro hc
      cases hc

theorem id_inj {s : OrchState} (hI : Inv s) :
    ∀ u v, u < s.store.length → v < s.store.length →
      (taskAt s u).task_id = (taskAt s v).task_id → u = v := by
  intro u v hu hv he
  have h1 := hI.storeIds u hu
  have h2 := hI.storeIds v hv
  rw [he] at h1
  rw [h1] at h2
  exact Option.some.inj h2

theorem inv_execute {s : OrchState} (hI : Inv s) (j a now : Nat)
    (hj : j < s.store.length) (ha : a < s.agents.length)
    (hrun : (taskAt s j).status = .running)
    (hnp : j ∉ s.pendingExec.map Prod.fst) :
    Inv (execute_task s j a now) := by
  have hmemA : s.agents.getD a dummyAgent ∈ s.agents := mem_getD ha
  have hloadLo := hI.loadLo _ hmemA
  have hloadHi := hI.loadHi _ hmemA
  have hfreshC : lookupAssoc s.completed_tasks (taskAt s j).task_id
      = none := by
    cases hlc : lookupAssoc s.completed_tasks (taskAt s j).task_id with
    | none => rfl
    | some v =>
        have hm := mem_of_lookupAssoc hlc
        obtain ⟨hv, hvs, hvid⟩ := hI.compMap _ hm
        have hvj := id_inj hI v j hv hj hvid
        subst hvj
        rw [hvs] at hrun
        cases hrun
  have hfreshF : lookupAssoc s.failed_tasks (taskAt s j).task_id = none := by
    cases hlc : lookupAssoc s.failed_tasks (taskAt s j).task_id with
    | none => rfl
    | some v =>
        have hm := mem_of_lookupAssoc hlc
        obtain ⟨hv, hvs, hvid⟩ := hI.failMap _ hm
        have hvj := id_inj hI v j hv hj hvid
        subst hvj
        rw [hvs] at hrun
        cases hrun
  have hkeyC : (taskAt s j).task_id ∉ s.completed_tasks.map Prod.fst := by
    intro hmem
    have := lookupAssoc_isSome_of_mem hmem
    rw [hfreshC] at this
    cases this
  have hkeyF : (taskAt s j).task_id ∉ s.failed_tasks.map Prod.fst := by
    intro hmem
    have := lookupAssoc_isSome_of_mem hmem
    rw [hfreshF] at this
    cases this
  have hrunD : (s.store.getD j dummyTask).status = .running := hrun
  have hfreshC' : lookupAssoc s.completed_tasks
      (s.store.getD j dummyTask).task_id = none := hfreshC
  have hfreshF' : lookupAssoc s.failed_tasks
      (s.store.getD j dummyTask).task_id = none := hfreshF
  have hkeyC' : (s.store.getD j dummyTask).task_id
      ∉ s.completed_tasks.map Prod.fst := hkeyC
  have hkeyF' : (s.store.getD j dummyTask).task_id
      ∉ s.failed_tasks.map Prod.fst := hkeyF
  rw [execute_task]
  cases hout : execOutcome (s.agents.getD a dummyAgent).agent_type
      (s.store.getD j dummyTask).task_type with
  | ok r =>
      dsimp only
      constructor
      · intro b hb
        rcases mem_of_mem_set hb with hb | hb
        · exact hI.loadLo b hb
        · rw [hb]
          exact le_max_left _ _
      · intro b hb
        rcases mem_of_mem_set hb with hb | hb
        · exact hI.loadHi b hb
        · rw [hb]
          exact max_le (by norm_num) (by omega)
      · intro q hq
        have := hI.heapObj q hq
        simpa [List.length_set] using this
      · exact hI.heapNodup
      · intro q hq
        have hqo := hI.heapPending q hq
        have hne : q.obj ≠ j := by
          intro hc
          rw [hc] at hqo
          rw [hqo] at hrun
          cases hrun
        show ((s.store.set j _).getD q.obj dummyTask).status = _
        rw [getD_set_ne (fun hc => hne hc.symm)]
        exact hqo
      · intro p hp
        obtain ⟨h1, h2⟩ := hI.pendBounds p hp
        exact ⟨by simpa [List.length_set] using h1,
          by simpa [List.length_set] using h2⟩
      · intro p hp
        have hne : p.1 ≠ j := by
          intro hc
          exact hnp (hc ▸ List.mem_map_of_mem Prod.fst hp)
        show ((s.store.set j _).getD p.1 dummyTask).status = _
        rw [getD_set_ne (fun hc => hne hc.symm)]
        exact hI.pendRun p hp
      · exact hI.pendNodup
      · intro p hp
        obtain ⟨h1, h2⟩ := hI.tasksRange p hp
        refine ⟨by simpa [List.length_set] using h1, ?_⟩
        show ((s.store.set j _).getD p.2 dummyTask).task_id = _
        by_cases hpj : j = p.2
        · subst hpj
          rw [getD_set_self hj]
          rw [← h2]
          rfl
        · rw [getD_set_ne hpj]
          exact h2
      · exact hI.tasksNodup
      · intro u hu
        rw [List.length_set] at hu
        by_cases huj : j = u
        · subst huj
          show lookupAssoc s.tasks
            (((s.store.set j _).getD j dummyTask)).task_id = _
          rw [getD_set_self hj]
          have : ({ s.store.getD j dummyTask with
              status := TaskStatus.completed, result := some r,
              completed_at := some now } : AgentTask).task_id
              = (taskAt s j).task_id := rfl
          rw [this]
          exact hI.storeIds j hj
        · show lookupAssoc s.tasks
            (((s.store.set j _).getD u dummyTask)).task_id = _
          rw [getD_set_ne huj]
          exact hI.storeIds u hu
      · intro p hp
        rw [insertAssoc_of_lookup_none _ hfreshC'] at hp
        rcases List.mem_append.mp hp with hp | hp
        · obtain ⟨h1, h2, h3⟩ := hI.compMap p hp
          have hne : p.2 ≠ j := by
            intro hc
            rw [hc] at h2
            rw [h2] at hrun
            cases hrun
          refine ⟨by simpa [List.length_set] using h1, ?_, ?_⟩
          · show ((s.store.set j _).getD p.2 dummyTask).status = _
            rw [getD_set_ne (fun hc => hne hc.symm)]
            exact h2
          · show ((s.store.set j _).getD p.2 dummyTask).task_id = _
            rw [getD_set_ne (fun hc => hne hc.symm)]
            exact h3
        · simp only [List.mem_singleton] at hp
          rw [hp]
          refine ⟨by simpa [List.length_set] using hj, ?_, ?_⟩
          · show ((s.store.set j _).getD j dummyTask).status = _
            rw [getD_set_self hj]
          · show ((s.store.set j _).getD j dummyTask).task_id = _
            rw [getD_set_self hj]
      · rw [insertAssoc_of_lookup_none _ hfreshC', List.map_append,
          List.map_cons, List.map_nil]
        have hperm : ((s.completed_tasks.map Prod.fst)
            ++ [(s.store.getD j dummyTask).task_id]).Perm
            ((s.store.getD j dummyTask).task_id
              :: s.completed_tasks.map Prod.fst) :=
          List.perm_append_singleton _ _
        rw [hperm.nodup_iff, List.nodup_cons]
        exact ⟨hkeyC', hI.compNodup⟩
      · intro u hu hs
        rw [List.length_set] at hu
        by_cases huj : j = u
        · subst huj
          show lookupAssoc _ (((s.store.set j _).getD j dummyTask)).task_id
            = _
          rw [getD_set_self hj]
          have hid : ({ s.store.getD j dummyTask with
              status := TaskStatus.completed, result := some r,
              completed_at := some now } : AgentTask).task_id
              = (s.store.getD j dummyTask).task_id := rfl
          rw [hid]
          exact lookupAssoc_insertAssoc_self _ _ _
        · have hs' : (taskAt s u).status = .completed := by
            have heq : ((s.store.set j ({ s.store.getD j dummyTask with
                status := TaskStatus.completed, result := some r,
                completed_at := some now } : AgentTask)).getD u dummyTask)
                = taskAt s u := getD_set_ne huj
            rw [← heq]
            exact hs
          show lookupAssoc _ (((s.store.set j _).getD u dummyTask)).task_id
            = _
          rw [getD_set_ne huj]
          have hbase := hI.compConv u hu hs'
          have hneid : (s.store.getD u dummyTask).task_id
              ≠ (s.store.getD j dummyTask).task_id := by
            intro hc
            exact huj (id_inj hI u j hu hj hc).symm
          rw [lookupAssoc_insertAssoc_ne _ _ hneid]
          exact hbase
      · intro p hp
        obtain ⟨h1, h2, h3⟩ := hI.failMap p hp
        have hne : p.2 ≠ j := by
          intro hc
          rw [hc] at h2
          rw [h2] at hrun
          cases hrun
        refine ⟨by simpa [List.length_set] using h1, ?_, ?_⟩
        · show ((s.store.set j _).getD p.2 dummyTask).status = _
          rw [getD_set_ne (fun hc => hne hc.symm)]
          exact h2
        · show ((s.store.set j _).getD p.2 dummyTask).task_id = _
          rw [getD_set_ne (fun hc => hne hc.symm)]
          exact h3
      · exact hI.failNodup
      · intro u hu hs
        rw [List.length_set] at hu
        by_cases huj : j = u
        · subst huj
          exfalso
          have : ((s.store.set j _).getD j dummyTask).status
              = TaskStatus.failed := hs
          rw [getD_set_self hj] at this
          cases this
        · have hs' : (taskAt s u).status = .failed := by
            have heq : ((s.store.set j ({ s.store.getD j dummyTask with
                status := TaskStatus.completed, result := some r,
                completed_at := some now } : AgentTask)).getD u dummyTask)
                = taskAt s u := getD_set_ne huj
            rw [← heq]
            exact hs
          show lookupAssoc _ (((s.store.set j _).getD u dummyTask)).task_id
            = _
          rw [getD_set_ne huj]
          exact hI.failConv u hu hs'
      · intro u hu hs
        rw [List.length_set] at hu
        by_cases huj : j = u
        · subst huj
          exfalso
          have : ((s.store.set j _).getD j dummyTask).status
              = TaskStatus.running := hs
          rw [getD_set_self hj] at this
          cases this
        · have hs' : (taskAt s u).status = .running := by
            have heq : ((s.store.set j ({ s.store.getD j dummyTask with
                status := TaskStatus.completed, result := some r,
                completed_at := some now } : AgentTask)).getD u dummyTask)
                = taskAt s u := getD_set_ne huj
            rw [← heq]
            exact hs
          have hbase := hI.runDeps u hu hs'
          have heq : ((s.store.set j ({ s.store.getD j dummyTask with
              status := TaskStatus.completed, result := some r,
              completed_at := some now } : AgentTask)).getD u dummyTask)
              = taskAt s u := getD_set_ne huj
          show dependencies_satisfied ((s.store.set j _).getD u dummyTask) _
            = true
          rw [heq]
          refine dependencies_satisfied_mono ?_ hbase
          intro k hk
          exact lookupAssoc_insert_isSome hk
      · intro p hp
        obtain ⟨h1, h2, h3⟩ := hI.dispatchOk p hp
        refine ⟨by simpa [List.length_set] using h1,
          by simpa [List.length_set] using h2, ?_⟩
        have hL : ((s.store.set j ({ s.store.getD j dummyTask with
            status := TaskStatus.completed, result := some r,
            completed_at := some now } : AgentTask)).getD p.1
            dummyTask).agent_type = (taskAt s p.1).agent_type := by
          by_cases hpj : j = p.1
          · subst hpj
            rw [getD_set_self hj]
            rfl
          · rw [getD_set_ne hpj]
            rfl
        have hR : ((s.agents.set a ({ s.agents.getD a dummyAgent with
            load_factor := max 0 ((s.agents.getD a dummyAgent).load_factor
              - 20) } : AgentInfo)).getD p.2 dummyAgent).agent_type
            = (agentAt s p.2).agent_type := by
          by_cases hpa : a = p.2
          · subst hpa
            rw [getD_set_self ha]
            rfl
          · rw [getD_set_ne hpa]
            rfl
        show ((s.store.set j _).getD p.1 dummyTask).agent_type
          = ((s.agents.set a _).getD p.2 dummyAgent).agent_type
        rw [hL, hR]
        exact h3
      · intro u hu
        rw [List.length_set] at hu
        by_cases huj : j = u
        · subst huj
          show ((s.store.set j _).getD j dummyTask).status ≠ _
          rw [getD_set_self hj]
          intro hc
          cases hc
        · show ((s.store.set j _).getD u dummyTask).status ≠ _
          rw [getD_set_ne huj]
          exact hI.noCancel u hu
  | error msg =>
      dsimp only
      constructor
      · intro b hb
        rcases mem_of_mem_set hb with hb | hb
        · exact hI.loadLo b hb
        · rw [hb]
          exact le_max_left _ _
      · intro b hb
        rcases mem_of_mem_set hb with hb | hb
        · exact hI.loadHi b hb
        · rw [hb]
          exact max_le (by norm_num) (by omega)
      · intro q hq
        have := hI.heapObj q hq
        simpa [List.length_set] using this
      · exact hI.heapNodup
      · intro q hq
        have hqo := hI.heapPending q hq
        have hne : q.obj ≠ j := by
          intro hc
          rw [hc] at hqo
          rw [hqo] at hrun
          cases hrun
        show ((s.store.set j _).getD q.obj dummyTask).status = _
        rw [getD_set_ne (fun hc => hne hc.symm)]
        exact hqo
      · intro p hp
        obtain ⟨h1, h2⟩ := hI.pendBounds p hp
        exact ⟨by simpa [List.length_set] using h1,
          by simpa [List.length_set] using h2⟩
      · intro p hp
        have hne : p.1 ≠ j := by
          intro hc
          exact hnp (hc ▸ List.mem_map_of_mem Prod.fst hp)
        show ((s.store.set j _).getD p.1 dummyTask).status = _
        rw [getD_set_ne (fun hc => hne hc.symm)]
        exact hI.pendRun p hp
      · exact hI.pendNodup
      · intro p hp
        obtain ⟨h1, h2⟩ := hI.tasksRange p hp
        refine ⟨by simpa [List.length_set] using h1, ?_⟩
        show ((s.store.set j _).getD p.2 dummyTask).task_id = _
        by_cases hpj : j = p.2
        · subst hpj
          rw [getD_set_self hj]
          rw [← h2]
          rfl
        · rw [getD_set_ne hpj]
          exact h2
      · exact hI.tasksNodup
      · intro u hu
        rw [List.length_set] at hu
        by_cases huj : j = u
        · subst huj
          show lookupAssoc s.tasks
            (((s.store.set j _).getD j dummyTask)).task_id = _
          rw [getD_set_self hj]
          have : ({ s.store.getD j dummyTask with
              status := TaskStatus.failed, error_message := some msg,
              completed_at := some now } : AgentTask).task_id
              = (taskAt s j).task_id := rfl
          rw [this]
          exact hI.storeIds j hj
        · show lookupAssoc s.tasks
            (((s.store.set j _).getD u dummyTask)).task_id = _
          rw [getD_set_ne huj]
          exact hI.storeIds u hu
      · intro p hp
        obtain ⟨h1, h2, h3⟩ := hI.compMap p hp
        have hne : p.2 ≠ j := by
          intro hc
          rw [hc] at h2
          rw [h2] at hrun
          cases hrun
        refine ⟨by simpa [List.length_set] using h1, ?_, ?_⟩
        · show ((s.store.set j _).getD p.2 dummyTask).status = _
          rw [getD_set_ne (fun hc => hne hc.symm)]
          exact h2
        · show ((s.store.set j _).getD p.2 dummyTask).task_id = _
          rw [getD_set_ne (fun hc => hne hc.symm)]
          exact h3
      · exact hI.compNodup
      · intro u hu hs
        rw [List.length_set] at hu
        by_cases huj : j = u
        · subst huj
          exfalso
          have : ((s.store.set j _).getD j dummyTask).status
              = TaskStatus.completed := hs
          rw [getD_set_self hj] at this
          cases this
        · have hs' : (taskAt s u).status = .completed := by
            have heq : ((s.store.set j ({ s.store.getD j dummyTask with
                status := TaskStatus.failed, error_message := some msg,
                completed_at := some now } : AgentTask)).getD u dummyTask)
                = taskAt s u := getD_set_ne huj
            rw [← heq]
            exact hs
          show lookupAssoc _ (((s.store.set j _).getD u dummyTask)).task_id
            = _
          rw [getD_set_ne huj]
          exact hI.compConv u hu hs'
      · intro p hp
        rw [insertAssoc_of_lookup_none _ hfreshF'] at hp
        rcases List.mem_append.mp hp with hp | hp
        · obtain ⟨h1, h2, h3⟩ := hI.failMap p hp
          have hne : p.2 ≠ j := by
            intro hc
            rw [hc] at h2
            rw [h2] at hrun
            cases hrun
          refine ⟨by simpa [List.length_set] using h1, ?_, ?_⟩
          · show ((s.store.set j _).getD p.2 dummyTask).status = _
            rw [getD_set_ne (fun hc => hne hc.symm)]
            exact h2
          · show ((s.store.set j _).getD p.2 dummyTask).task_id = _
            rw [getD_set_ne (fun hc => hne hc.symm)]
            exact h3
        · simp only [List.mem_singleton] at hp
          rw [hp]
          refine ⟨by simpa [List.length_set] using hj, ?_, ?_⟩
          · show ((s.store.set j _).getD j dummyTask).status = _
            rw [getD_set_self hj]
          · show ((s.store.set j _).getD j dummyTask).task_id = _
            rw [getD_set_self hj]
      · rw [insertAssoc_of_lookup_none _ hfreshF', List.map_append,
          List.map_cons, List.map_nil]
        have hperm : ((s.failed_tasks.map Prod.fst)
            ++ [(s.store.getD j dummyTask).task_id]).Perm
            ((s.store.getD j dummyTask).task_id
              :: s.failed_tasks.map Prod.fst) :=
          List.perm_append_singleton _ _
        rw [hperm.nodup_iff, List.nodup_cons]
        exact ⟨hkeyF', hI.failNodup⟩
      · intro u hu hs
        rw [List.length_set] at hu
        by_cases huj : j = u
        · subst huj
          show lookupAssoc _ (((s.store.set j _).getD j dummyTask)).task_id
            = _
          rw [getD_set_self hj]
          have hid : ({ s.store.getD j dummyTask with
              status := TaskStatus.failed, error_message := some msg,
              completed_at := some now } : AgentTask).task_id
              = (s.store.getD j dummyTask).task_id := rfl
          rw [hid]
          exact lookupAssoc_insertAssoc_self _ _ _
        · have hs' : (taskAt s u).status = .failed := by
            have heq : ((s.store.set j ({ s.store.getD j dummyTask with
                status := TaskStatus.failed, error_message := some msg,
                completed_at := some now } : AgentTask)).getD u dummyTask)
                = taskAt s u := getD_set_ne huj
            rw [← heq]
            exact hs
          show lookupAssoc _ (((s.store.set j _).getD u dummyTask)).task_id
            = _
          rw [getD_set_ne huj]
          have hbase := hI.failConv u hu hs'
          have hneid : (s.store.getD u dummyTask).task_id
              ≠ (s.store.getD j dummyTask).task_id := by
            intro hc
            exact huj (id_inj hI u j hu hj hc).symm
          rw [lookupAssoc_insertAssoc_ne _ _ hneid]
          exact hbase
      · intro u hu hs
        rw [List.length_set] at hu
        by_cases huj : j = u
        · subst huj
          exfalso
          have : ((s.store.set j _).getD j dummyTask).status
              = TaskStatus.running := hs
          rw [getD_set_self hj] at this
          cases this
        · have hs' : (taskAt s u).status = .running := by
            have heq : ((s.store.set j ({ s.store.getD j dummyTask with
                status := TaskStatus.failed, error_message := some msg,
                completed_at := some now } : AgentTask)).getD u dummyTask)
                = taskAt s u := getD_set_ne huj
            rw [← heq]
            exact hs
          have hbase := hI.runDeps u hu hs'
          have heq : ((s.store.set j ({ s.store.getD j dummyTask with
              status := TaskStatus.failed, error_message := some msg,
              completed_at := some now } : AgentTask)).getD u dummyTask)
              = taskAt s u := getD_set_ne huj
          show dependencies_satisfied ((s.store.set j _).getD u dummyTask) _
            = true
          rw [heq]
          exact hbase
      · intro p hp
        obtain ⟨h1, h2, h3⟩ := hI.dispatchOk p hp
        refine ⟨by simpa [List.length_set] using h1,
          by simpa [List.length_set] using h2, ?_⟩
        have hL : ((s.store.set j ({ s.store.getD j dummyTask with
            status := TaskStatus.failed, error_message := some msg,
            completed_at := some now } : AgentTask)).getD p.1
            dummyTask).agent_type = (taskAt s p.1).agent_type := by
          by_cases hpj : j = p.1
          · subst hpj
            rw [getD_set_self hj]
            rfl
          · rw [getD_set_ne hpj]
            rfl
        have hR : ((s.agents.set a ({ s.agents.getD a dummyAgent with
            load_factor := max 0 ((s.agents.getD a dummyAgent).load_factor
              - 20) } : AgentInfo)).getD p.2 dummyAgent).agent_type
            = (agentAt s p.2).agent_type := by
          by_cases hpa : a = p.2
          · subst hpa
            rw [getD_set_self ha]
            rfl
          · rw [getD_set_ne hpa]
            rfl
        show ((s.store.set j _).getD p.1 dummyTask).agent_type
          = ((s.agents.set a _).getD p.2 dummyAgent).agent_type
        rw [hL, hR]
        exact h3
      · intro u hu
        rw [List.length_set] at hu
        by_cases huj : j = u
        · subst huj
          show ((s.store.set j _).getD j dummyTask).status ≠ _
          rw [getD_set_self hj]
          intro hc
          cases hc
        · show ((s.store.set j _).getD u dummyTask).status ≠ _
          rw [getD_set_ne huj]
          exact hI.noCancel u hu

theorem inv_run_pending {s : OrchState} (hI : Inv s) (k now : Nat) :
    Inv (run_pending_exec s k now) := by
  cases hk : s.pendingExec.get? k with
  | none =>
      have heq : run_pending_exec s k now = s := by
        rw [run_pending_exec, hk]
      rw [heq]
      exact hI
  | some pa =>
      obtain ⟨j, a⟩ := pa
      have hmem : (j, a) ∈ s.pendingExec := List.get?_mem hk
      obtain ⟨hj, ha⟩ := hI.pendBounds _ hmem
      have hrun := hI.pendRun _ hmem
      have heq : run_pending_exec s k now
          = execute_task { s with pendingExec := s.pendingExec.eraseIdx k }
            j a now := by
        rw [run_pending_exec, hk]
      rw [heq]
      have hsub : (s.pendingExec.eraseIdx k).Sublist s.pendingExec :=
        List.eraseIdx_sublist _ _
      have hI2 : Inv { s with pendingExec := s.pendingExec.eraseIdx k } := by
        constructor
        · exact hI.loadLo
        · exact hI.loadHi
        · exact hI.heapObj
        · exact hI.heapNodup
        · exact hI.heapPending
        · intro p hp
          exact hI.pendBounds p (hsub.subset hp)
        · intro p hp
          exact hI.pendRun p (hsub.subset hp)
        · exact (hI.pendNodup).sublist (hsub.map Prod.fst)
        · exact hI.tasksRange
        · exact hI.tasksNodup
        · exact hI.storeIds
        · exact hI.compMap
        · exact hI.compNodup
        · exact hI.compConv
        · exact hI.failMap
        · exact hI.failNodup
        · exact hI.failConv
        · exact hI.runDeps
        · exact hI.dispatchOk
        · exact hI.noCancel
      have hnp : j ∉ (s.pendingExec.eraseIdx k).map Prod.fst := by
        intro hc
        obtain ⟨y, hy, hyf⟩ := List.mem_map.mp hc
        exact (nodup_eraseIdx_map_ne hI.pendNodup hk hy) hyf
      exact inv_execute hI2 j a now hj ha hrun hnp

theorem inv_requeue {s : OrchState} (hI : Inv s) {item : QItem}
    {heap' : List QItem} (hpop : heappop s.heap = some (item, heap'))
    (pl : List Nat) :
    Inv { s with heap := heappush heap' item, popLog := pl } := by
  have hperm : (heappush heap' item).Perm s.heap :=
    (heappush_perm heap' item).trans (heappop_perm hpop)
  constructor
  · exact hI.loadLo
  · exact hI.loadHi
  · intro q hq
    exact hI.heapObj q (hperm.mem_iff.mp hq)
  · exact (hperm.map QItem.obj).nodup_iff.mpr hI.heapNodup
  · intro q hq
    exact hI.heapPending q (hperm.mem_iff.mp hq)
  · exact hI.pendBounds
  · exact hI.pendRun
  · exact hI.pendNodup
  · exact hI.tasksRange
  · exact hI.tasksNodup
  · exact hI.storeIds
  · exact hI.compMap
  · exact hI.compNodup
  · exact hI.compConv
  · exact hI.failMap
  · exact hI.failNodup
  · exact hI.failConv
  · exact hI.runDeps
  · exact hI.dispatchOk
  · exact hI.noCancel

theorem inv_assign {s : OrchState} (hI : Inv s) {item : QItem}
    {heap' : List QItem} (hpop : heappop s.heap = some (item, heap'))
    {a : Nat} (hfind : find_available_agent s.agents
      (s.store.getD item.obj dummyTask).agent_type = some a)
    (hdeps : dependencies_satisfied (s.store.getD item.obj dummyTask)
      s.completed_tasks = true) (now : Nat) (pl : List Nat) :
    Inv (assign_task_to_agent
      { s with heap := heap', popLog := pl } item.obj a now) := by
  have hitem : item ∈ s.heap := mem_of_heappop_fst hpop
  have hj : item.obj < s.store.length := hI.heapObj _ hitem
  have hpend : (s.store.getD item.obj dummyTask).status = .pending :=
    hI.heapPending _ hitem
  obtain ⟨hnd', hnotin⟩ := heappop_obj_nodup hpop hI.heapNodup
  obtain ⟨ha, havail, _⟩ := find_available_agent_some hfind
  obtain ⟨htype, hactive, hload⟩ := agentAvailable_iff.mp havail
  have hmemA : s.agents.getD a dummyAgent ∈ s.agents := mem_getD ha
  have hloadLo := hI.loadLo _ hmemA
  rw [assign_task_to_agent]
  dsimp only
  constructor
  · intro b hb
    rcases mem_of_mem_set hb with hb | hb
    · exact hI.loadLo b hb
    · rw [hb]
      show 0 ≤ (s.agents.getD a dummyAgent).load_factor + 20
      omega
  · intro b hb
    rcases mem_of_mem_set hb with hb | hb
    · exact hI.loadHi b hb
    · rw [hb]
      show (s.agents.getD a dummyAgent).load_factor + 20 ≤ 100
      omega
  · intro q hq
    have := hI.heapObj q (mem_of_heappop_rest hpop hq)
    simpa [List.length_set] using this
  · exact hnd'
  · intro q hq
    have hne : q.obj ≠ item.obj := by
      intro hc
      exact hnotin (hc ▸ List.mem_map_of_mem QItem.obj hq)
    show ((s.store.set item.obj _).getD q.obj dummyTask).status = _
    rw [getD_set_ne (fun hc => hne hc.symm)]
    exact hI.heapPending q (mem_of_heappop_rest hpop hq)
  · intro p hp
    rcases List.mem_append.mp hp with hp | hp
    · obtain ⟨h1, h2⟩ := hI.pendBounds p hp
      exact ⟨by simpa [List.length_set] using h1,
        by simpa [List.length_set] using h2⟩
    · simp only [List.mem_singleton] at hp
      rw [hp]
      exact ⟨by simpa [List.length_set] using hj,
        by simpa [List.length_set] using ha⟩
  · intro p hp
    rcases List.mem_append.mp hp with hp | hp
    · have hne : p.1 ≠ item.obj := by
        intro hc
        have := hI.pendRun p hp
        rw [hc] at this
        show False
        rw [show taskAt s item.obj = s.store.getD item.obj dummyTask
          from rfl] at this
        rw [hpend] at this
        cases this
      show ((s.store.set item.obj _).getD p.1 dummyTask).status = _
      rw [getD_set_ne (fun hc => hne hc.symm)]
      exact hI.pendRun p hp
    · simp only [List.mem_singleton] at hp
      rw [hp]
      show ((s.store.set item.obj _).getD item.obj dummyTask).status = _
      rw [getD_set_self hj]
  · rw [List.map_append, List.map_cons, List.map_nil]
    have hnotp : item.obj ∉ s.pendingExec.map Prod.fst := by
      intro hc
      obtain ⟨y, hy, hyf⟩ := List.mem_map.mp hc
      have := hI.pendRun y hy
      rw [hyf] at this
      rw [show taskAt s item.obj = s.store.getD item.obj dummyTask
        from rfl] at this
      rw [hpend] at this
      cases this
    have hperm : ((s.pendingExec.map Prod.fst) ++ [item.obj]).Perm
        (item.obj :: s.pendingExec.map Prod.fst) :=
      List.perm_append_singleton _ _
    rw [hperm.nodup_iff, List.nodup_cons]
    exact ⟨hnotp, hI.pendNodup⟩
  · intro p hp
    obtain ⟨h1, h2⟩ := hI.tasksRange p hp
    refine ⟨by simpa [List.length_set] using h1, ?_⟩
    show ((s.store.set item.obj _).getD p.2 dummyTask).task_id = _
    by_cases hpj : item.obj = p.2
    · have h2' := h2
      rw [← hpj] at h2'
      rw [← hpj, getD_set_self hj, ← h2']
      rfl
    · rw [getD_set_ne hpj]
      exact h2
  · exact hI.tasksNodup
  · intro u hu
    rw [List.length_set] at hu
    by_cases huj : item.obj = u
    · subst huj
      show lookupAssoc s.tasks
        (((s.store.set item.obj _).getD item.obj dummyTask)).task_id = _
      rw [getD_set_self hj]
      exact hI.storeIds item.obj hj
    · show lookupAssoc s.tasks
        (((s.store.set item.obj _).getD u dummyTask)).task_id = _
      rw [getD_set_ne huj]
      exact hI.storeIds u hu
  · intro p hp
    obtain ⟨h1, h2, h3⟩ := hI.compMap p hp
    have hne : p.2 ≠ item.obj := by
      intro hc
      rw [hc] at h2
      rw [show taskAt s item.obj = s.store.getD item.obj dummyTask
        from rfl] at h2
      rw [hpend] at h2
      cases h2
    refine ⟨by simpa [List.length_set] using h1, ?_, ?_⟩
    · show ((s.store.set item.obj _).getD p.2 dummyTask).status = _
      rw [getD_set_ne (fun hc => hne hc.symm)]
      exact h2
    · show ((s.store.set item.obj _).getD p.2 dummyTask).task_id = _
      rw [getD_set_ne (fun hc => hne hc.symm)]
      exact h3
  · exact hI.compNodup
  · intro u hu hs
    rw [List.length_set] at hu
    by_cases huj : item.obj = u
    · subst huj
      exfalso
      have : ((s.store.set item.obj _).getD item.obj dummyTask).status
          = TaskStatus.completed := hs
      rw [getD_set_self hj] at this
      cases this
    · have hs' : (taskAt s u).status = .completed := by
        have heqq : ((s.store.set item.obj
            ({ s.store.getD item.obj dummyTask with
              status := TaskStatus.running, started_at := some now,
              assigned_agent := some (s.agents.getD a dummyAgent).agent_id }
              : AgentTask)).getD u dummyTask) = taskAt s u :=
          getD_set_ne huj
        rw [← heqq]
        exact hs
      show lookupAssoc _
        (((s.store.set item.obj _).getD u dummyTask)).task_id = _
      rw [getD_set_ne huj]
      exact hI.compConv u hu hs'
  · intro p hp
    obtain ⟨h1, h2, h3⟩ := hI.failMap p hp
    have hne : p.2 ≠ item.obj := by
      intro hc
      rw [hc] at h2
      rw [show taskAt s item.obj = s.store.getD item.obj dummyTask
        from rfl] at h2
      rw [hpend] at h2
      cases h2
    refine ⟨by simpa [List.length_set] using h1, ?_, ?_⟩
    · show ((s.store.set item.obj _).getD p.2 dummyTask).status = _
      rw [getD_set_ne (fun hc => hne hc.symm)]
      exact h2
    · show ((s.store.set item.obj _).getD p.2 dummyTask).task_id = _
      rw [getD_set_ne (fun hc => hne hc.symm)]
      exact h3
  · exact hI.failNodup
  · intro u hu hs
    rw [List.length_set] at hu
    by_cases huj : item.obj = u
    · subst huj
      exfalso
      have : ((s.store.set item.obj _).getD item.obj dummyTask).status
          = TaskStatus.failed := hs
      rw [getD_set_self hj] at this
      cases this
    · have hs' : (taskAt s u).status = .failed := by
        have heqq : ((s.store.set item.obj
            ({ s.store.getD item.obj dummyTask with
              status := TaskStatus.running, started_at := some now,
              assigned_agent := some (s.agents.getD a dummyAgent).agent_id }
              : AgentTask)).getD u dummyTask) = taskAt s u :=
          getD_set_ne huj
        rw [← heqq]
        exact hs
      show lookupAssoc _
        (((s.store.set item.obj _).getD u dummyTask)).task_id = _
      rw [getD_set_ne huj]
      exact hI.failConv u hu hs'
  · intro u hu hs
    rw [List.length_set] at hu
    by_cases huj : item.obj = u
    · subst huj
      show dependencies_satisfied
        ((s.store.set item.obj _).getD item.obj dummyTask) _ = true
      rw [getD_set_self hj]
      exact hdeps
    · have hs' : (taskAt s u).status = .running := by
        have heqq : ((s.store.set item.obj
            ({ s.store.getD item.obj dummyTask with
              status := TaskStatus.running, started_at := some now,
              assigned_agent := some (s.agents.getD a dummyAgent).agent_id }
              : AgentTask)).getD u dummyTask) = taskAt s u :=
          getD_set_ne huj
        rw [← heqq]
        exact hs
      have heqq : ((s.store.set item.obj
          ({ s.store.getD item.obj dummyTask with
            status := TaskStatus.running, started_at := some now,
            assigned_agent := some (s.agents.getD a dummyAgent).agent_id }
            : AgentTask)).getD u dummyTask) = taskAt s u :=
        getD_set_ne huj
      show dependencies_satisfied
        ((s.store.set item.obj _).getD u dummyTask) _ = true
      rw [heqq]
      exact hI.runDeps u hu hs'
  · intro p hp
    rcases List.mem_append.mp hp with hp | hp
    · obtain ⟨h1, h2, h3⟩ := hI.dispatchOk p hp
      refine ⟨by simpa [List.length_set] using h1,
        by simpa [List.length_set] using h2, ?_⟩
      have hL : ((s.store.set item.obj
          ({ s.store.getD item.obj dummyTask with
            status := TaskStatus.running, started_at := some now,
            assigned_agent := some (s.agents.getD a dummyAgent).agent_id }
            : AgentTask)).getD p.1 dummyTask).agent_type
          = (taskAt s p.1).agent_type := by
        by_cases hpj : item.obj = p.1
        · rw [← hpj, getD_set_self hj]
          rfl
        · rw [getD_set_ne hpj]
          rfl
      have hR : ((s.agents.set a ({ s.agents.getD a dummyAgent with
          load_factor := (s.agents.getD a dummyAgent).load_factor + 20 }
          : AgentInfo)).getD p.2 dummyAgent).agent_type
          = (agentAt s p.2).agent_type := by
        by_cases hpa : a = p.2
        · subst hpa
          rw [getD_set_self ha]
          rfl
        · rw [getD_set_ne hpa]
          rfl
      show ((s.store.set item.obj _).getD p.1 dummyTask).agent_type
        = ((s.agents.set a _).getD p.2 dummyAgent).agent_type
      rw [hL, hR]
      exact h3
    · simp only [List.mem_singleton] at hp
      rw [hp]
      refine ⟨by simpa [List.length_set] using hj,
        by simpa [List.length_set] using ha, ?_⟩
      show ((s.store.set item.obj _).getD item.obj dummyTask).agent_type
        = ((s.agents.set a _).getD a dummyAgent).agent_type
      rw [getD_set_self hj, getD_set_self ha]
      show (s.store.getD item.obj dummyTask).agent_type
        = (s.agents.getD a dummyAgent).agent_type
      rw [htype]
  · intro u hu
    rw [List.length_set] at hu
    by_cases huj : item.obj = u
    · subst huj
      show ((s.store.set item.obj _).getD item.obj dummyTask).status ≠ _
      rw [getD_set_self hj]
      intro hc
      cases hc
    · show ((s.store.set item.obj _).getD u dummyTask).status ≠ _
      rw [getD_set_ne huj]
      exact hI.noCancel u hu

theorem inv_process {s : OrchState} (hI : Inv s) (now fuel : Nat) :
    Inv (process_task_queue now fuel s) := by
  induction fuel generalizing s with
  | zero => exact hI
  | succ n IH =>
      rw [process_task_queue]
      split
      · exact hI
      · cases hpop : heappop s.heap with
        | none => exact hI
        | some pr =>
            obtain ⟨item, heap'⟩ := pr
            dsimp only
            split
            · exact IH (inv_requeue hI hpop _)
            · rename_i hdeps
              have hdeps' : dependencies_satisfied
                  (s.store.getD item.obj dummyTask) s.completed_tasks
                  = true := by
                cases hd : dependencies_satisfied
                    (s.store.getD item.obj dummyTask) s.completed_tasks
                · exact absurd hd hdeps
                · rfl
              cases hfind : find_available_agent s.agents
                  (s.store.getD item.obj dummyTask).agent_type with
              | some a => exact IH (inv_assign hI hpop hfind hdeps' now _)
              | none => exact inv_requeue hI hpop _

/-- Every reachable state satisfies the system invariant. -/
theorem reachable_inv {cfg : OrchestratorConfig} {s : OrchState}
    (h : Reachable cfg s) : Inv s := by
  induction h with
  | init => exact inv_init
  | step _hpre hS ih =>
      cases hS with
      | register agent hload hact => exact inv_register ih agent hload hact
      | submit task hst hfresh => exact inv_submit ih task hst hfresh
      | drain now fuel => exact inv_process ih now fuel
      | exec k now => exact inv_run_pending ih k now
      | sweep now => exact inv_sweep ih cfg now
      | heartbeat a now => exact inv_heartbeat ih a now

/-- The priority queue's backing list is a binary min-heap in every
reachable state: submissions push, the dispatch loop pops and re-pushes,
and no other operation touches the queue. -/
theorem reachable_isHeap {cfg : OrchestratorConfig} {s : OrchState}
    (hR : Reachable cfg s) : IsHeap s.heap := by
  induction hR with
  | init =>
      intro i hi _
      simp [initState] at hi
  | step _hpre hS ih =>
      cases hS with
      | register agent hload hact => exact ih
      | submit task hst hfresh =>
          rw [submit_task_eq]
          exact heappush_isHeap ih _
      | drain now fuel => exact process_isHeap now fuel _ ih
      | exec k now =>
          rw [run_pending_heap_eq]
          exact ih
      | sweep now => exact ih
      | heartbeat a now =>
          rw [heartbeat_signal]
          split
          · exact ih
          · exact ih

/-! ## Status evolution -/

/-- One dispatch pass changes a task's status at most once, from PENDING to
RUNNING; every other task record is untouched. -/
theorem drain_task_evolution {s : OrchState} (hI : Inv s) (now fuel j : Nat) :
    taskAt (process_task_queue now fuel s) j = taskAt s j ∨
    ((taskAt s j).status = .pending ∧
      (taskAt (process_task_queue now fuel s) j).status = .running) := by
  induction fuel generalizing s with
  | zero => exact Or.inl rfl
  | succ n IH =>
      rw [process_task_queue]
      split
      · exact Or.inl rfl
      · cases hpop : heappop s.heap with
        | none => exact Or.inl rfl
        | some pr =>
            obtain ⟨item, heap'⟩ := pr
            dsimp only
            split
            · rcases IH (inv_requeue hI hpop _) with h | h
              · exact Or.inl h
              · exact Or.inr h
            · rename_i hdeps
              have hdeps' : dependencies_satisfied
                  (s.store.getD item.obj dummyTask) s.completed_tasks
                  = true := by
                cases hd : dependencies_satisfied
                    (s.store.getD item.obj dummyTask) s.completed_tasks
                · exact absurd hd hdeps
                · rfl
              cases hfind : find_available_agent s.agents
                  (s.store.getD item.obj dummyTask).agent_type with
              | some a =>
                  have hitem : item ∈ s.heap := mem_of_heappop_fst hpop
                  have hj := hI.heapObj _ hitem
                  have hpend := hI.heapPending _ hitem
                  have hI2 := inv_assign hI hpop hfind hdeps' now
                    (s.popLog ++ [item.obj])
                  by_cases hje : item.obj = j
                  · subst hje
                    right
                    refine ⟨hpend, ?_⟩
                    have hmid : (taskAt (assign_task_to_agent { s with heap := heap', popLog := s.popLog ++ [item.obj] } item.obj a now) item.obj).status = .running := by
                      show ((s.store.set item.obj _).getD item.obj
                        dummyTask).status = _
                      rw [getD_set_self hj]
                    rcases IH hI2 with h | h
                    · rw [h]
                      exact hmid
                    · rw [hmid] at h
                      cases h.1
                  · have hmid : taskAt (assign_task_to_agent { s with heap := heap', popLog := s.popLog ++ [item.obj] } item.obj a now) j = taskAt s j := by
                      show ((s.store.set item.obj _).getD j dummyTask) = _
                      exact getD_set_ne hje
                    rcases IH hI2 with h | h
                    · left
                      rw [h, hmid]
                    · right
                      rw [hmid] at h
                      exact h
              | none => exact Or.inl rfl

/-- One worker-pool execution changes exactly the executed task, from
RUNNING to a terminal status. -/
theorem exec_task_evolution {s : OrchState} (hI : Inv s) (k now j : Nat) :
    taskAt (run_pending_exec s k now) j = taskAt s j ∨
    ((taskAt s j).status = .running ∧
      ((taskAt (run_pending_exec s k now) j).status = .completed ∨
       (taskAt (run_pending_exec s k now) j).status = .failed)) := by
  cases hk : s.pendingExec.get? k with
  | none =>
      left
      rw [run_pending_exec, hk]
  | some pa =>
      obtain ⟨j', a⟩ := pa
      have hmem : (j', a) ∈ s.pendingExec := List.get?_mem hk
      obtain ⟨hj', _⟩ := hI.pendBounds _ hmem
      have hrun := hI.pendRun _ hmem
      have heq : run_pending_exec s k now
          = execute_task { s with pendingExec := s.pendingExec.eraseIdx k }
            j' a now := by
        rw [run_pending_exec, hk]
      rw [heq, execute_task]
      cases hout : execOutcome (s.agents.getD a dummyAgent).agent_type
          (s.store.getD j' dummyTask).task_type with
      | ok r =>
          dsimp only
          by_cases hje : j' = j
          · subst hje
            right
            refine ⟨hrun, Or.inl ?_⟩
            show ((s.store.set j' _).getD j' dummyTask).status = _
            rw [getD_set_self hj']
          · left
            show ((s.store.set j' _).getD j dummyTask) = _
            exact getD_set_ne hje
      | error msg =>
          dsimp only
          by_cases hje : j' = j
          · subst hje
            right
            refine ⟨hrun, Or.inr ?_⟩
            show ((s.store.set j' _).getD j' dummyTask).status = _
            rw [getD_set_self hj']
          · left
            show ((s.store.set j' _).getD j dummyTask) = _
            exact getD_set_ne hje

/-! ## Stability of the `tasks` dictionary -/

theorem process_tasks_eq (now fuel : Nat) (s : OrchState) :
    (process_task_queue now fuel s).tasks = s.tasks := by
  induction fuel generalizing s with
  | zero => rfl
  | succ n IH =>
      rw [process_task_queue]
      split
      · rfl
      · cases hpop : heappop s.heap with
        | none => rfl
        | some pr =>
            obtain ⟨item, heap'⟩ := pr
            dsimp only
            split
            · rw [IH]
            · cases hfind : find_available_agent s.agents
                  (s.store.getD item.obj dummyTask).agent_type with
              | some a => rw [IH]; rfl
              | none => rfl

theorem run_pending_tasks_eq (s : OrchState) (k now : Nat) :
    (run_pending_exec s k now).tasks = s.tasks := by
  cases hk : s.pendingExec.get? k with
  | none => rw [run_pending_exec, hk]
  | some pa =>
      obtain ⟨j, a⟩ := pa
      rw [run_pending_exec, hk]
      dsimp only
      rw [execute_task]
      cases execOutcome (s.agents.getD a dummyAgent).agent_type
          (s.store.getD j dummyTask).task_type <;> rfl

theorem heartbeat_tasks_eq (s : OrchState) (a now : Nat) :
    (heartbeat_signal s a now).tasks = s.tasks := by
  by_cases ha : a < s.agents.length <;> simp [heartbeat_signal, ha]

/-- Every `tasks` entry survives every operation: the orchestrator never
deletes a submitted task, and fresh submissions do not displace it. -/
theorem step_tasks_mono {cfg : OrchestratorConfig} {s s' : OrchState}
    (hS : Step cfg s s') {id : String} {j : Nat}
    (h : lookupAssoc s.tasks id = some j) :
    lookupAssoc s'.tasks id = some j := by
  cases hS with
  | register agent hload hact => exact h
  | submit task hst hfresh =>
      rw [submit_task_eq]
      dsimp only
      have hne : id ≠ task.task_id := by
        intro hc
        rw [hc, hfresh] at h
        cases h
      rw [lookupAssoc_insertAssoc_ne _ _ hne]
      exact h
  | drain now fuel => rw [process_tasks_eq]; exact h
  | exec k now => rw [run_pending_tasks_eq]; exact h
  | sweep now => exact h
  | heartbeat a now => rw [heartbeat_tasks_eq]; exact h

/-! ## Counting the terminal dictionaries -/

theorem comp_count {s : OrchState} (hI : Inv s) :
    s.completed_tasks.length = (s.tasks.filter fun p =>
      (s.store.getD p.2 dummyTask).status == TaskStatus.completed).length := by
  have h1 : s.completed_tasks.Nodup := hI.compNodup.of_map _
  have h2 : (s.tasks.filter fun p =>
      (s.store.getD p.2 dummyTask).status == TaskStatus.completed).Nodup :=
    (hI.tasksNodup.of_map _).sublist (List.filter_sublist _)
  have hmem : ∀ p : String × Nat, p ∈ s.completed_tasks ↔
      p ∈ s.tasks.filter fun q =>
        (s.store.getD q.2 dummyTask).status == TaskStatus.completed := by
    intro p
    constructor
    · intro hp
      obtain ⟨hl, hst, hid⟩ := hI.compMap p hp
      have hlk := hI.storeIds p.2 hl
      rw [hid] at hlk
      have hmemT : (p.1, p.2) ∈ s.tasks := mem_of_lookupAssoc hlk
      refine List.mem_filter.mpr ⟨hmemT, ?_⟩
      simp only [beq_iff_eq]
      exact hst
    · intro hp
      obtain ⟨hmemT, hpred⟩ := List.mem_filter.mp hp
      have hst : (taskAt s p.2).status = .completed := eq_of_beq hpred
      obtain ⟨hl, hid⟩ := hI.tasksRange p hmemT
      have hlk := hI.compConv p.2 hl hst
      rw [hid] at hlk
      exact mem_of_lookupAssoc hlk
  have hfin : s.completed_tasks.toFinset = (s.tasks.filter fun p =>
      (s.store.getD p.2 dummyTask).status == TaskStatus.completed).toFinset := by
    ext p
    simp only [List.mem_toFinset]
    exact hmem p
  exact (List.perm_of_nodup_nodup_toFinset_eq h1 h2 hfin).length_eq

theorem fail_count {s : OrchState} (hI : Inv s) :
    s.failed_tasks.length = (s.tasks.filter fun p =>
      (s.store.getD p.2 dummyTask).status == TaskStatus.failed).length := by
  have h1 : s.failed_tasks.Nodup := hI.failNodup.of_map _
  have h2 : (s.tasks.filter fun p =>
      (s.store.getD p.2 dummyTask).status == TaskStatus.failed).Nodup :=
    (hI.tasksNodup.of_map _).sublist (List.filter_sublist _)
  have hmem : ∀ p : String × Nat, p ∈ s.failed_tasks ↔
      p ∈ s.tasks.filter fun q =>
        (s.store.getD q.2 dummyTask).status == TaskStatus.failed := by
    intro p
    constructor
    · intro hp
      obtain ⟨hl, hst, hid⟩ := hI.failMap p hp
      have hlk := hI.storeIds p.2 hl
      rw [hid] at hlk
      have hmemT : (p.1, p.2) ∈ s.tasks := mem_of_lookupAssoc hlk
      refine List.mem_filter.mpr ⟨hmemT, ?_⟩
      simp only [beq_iff_eq]
      exact hst
    · intro hp
      obtain ⟨hmemT, hpred⟩ := List.mem_filter.mp hp
      have hst : (taskAt s p.2).status = .failed := eq_of_beq hpred
      obtain ⟨hl, hid⟩ := hI.tasksRange p hmemT
      have hlk := hI.failConv p.2 hl hst
      rw [hid] at hlk
      exact mem_of_lookupAssoc hlk
  have hfin : s.failed_tasks.toFinset = (s.tasks.filter fun p =>
      (s.store.getD p.2 dummyTask).status == TaskStatus.failed).toFinset := by
    ext p
    simp only [List.mem_toFinset]
    exact hmem p
  exact (List.perm_of_nodup_nodup_toFinset_eq h1 h2 hfin).length_eq

theorem length_filter_status {α : Type} (l : List α) (f : α → TaskStatus)
    (h : ∀ x ∈ l, f x ≠ .cancelled) :
    l.length = (l.filter fun x => f x == TaskStatus.pending).length
      + (l.filter fun x => f x == TaskStatus.running).length
      + (l.filter fun x => f x == TaskStatus.completed).length
      + (l.filter fun x => f x == TaskStatus.failed).length := by
  induction l with
  | nil => rfl
  | cons a t ih =>
      have ht := ih fun x hx => h x (List.mem_cons_of_mem _ hx)
      cases hfa : f a with
      | pending => simp [List.filter_cons, hfa, ht] <;> omega
      | running => simp [List.filter_cons, hfa, ht] <;> omega
      | completed => simp [List.filter_cons, hfa, ht] <;> omega
      | failed => simp [List.filter_cons, hfa, ht] <;> omega
      | cancelled => exact absurd hfa (h a (List.mem_cons_self _ _))

/-! ## Completeness of the agent scan -/

theorem find_available_agent_complete {agents : List AgentInfo}
    {t : AgentType} {i : Nat} (hi : i < agents.length)
    (hav : agentAvailable (agents.getD i dummyAgent) t = true)
    (hmin : ∀ j, j < i → agentAvailable (agents.getD j dummyAgent) t
      = false) :
    find_available_agent agents t = some i := by
  induction agents generalizing i with
  | nil => simp at hi
  | cons a rest ih =>
      cases i with
      | zero => rw [find_available_agent, if_pos (by simpa using hav)]
      | succ i' =>
          have h0 : agentAvailable a t = false := by
            simpa using hmin 0 (by omega)
          rw [find_available_agent, if_neg (by simp [h0])]
          rw [ih (by simpa using hi) (by simpa using hav)
            (fun j hj => by simpa using hmin (j + 1) (by omega))]
          rfl

theorem find_available_agent_none_complete {agents : List AgentInfo}
    {t : AgentType}
    (h : ∀ j, j < agents.length →
      agentAvailable (agents.getD j dummyAgent) t = false) :
    find_available_agent agents t = none := by
  cases hf : find_available_agent agents t with
  | none => rfl
  | some i =>
      obtain ⟨hi, hav, _⟩ := find_available_agent_some hf
      rw [h i hi] at hav
      cases hav

/-! ## Operation sequences (for configuration-irrelevance claims) -/

/-- One invocation of the orchestrator surface: caller API calls plus the
background dispatch, worker, and monitor passes. -/
inductive ApiOp where
  | register (agent : AgentInfo)
  | submit (task : AgentTask)
  | drain (now fuel : Nat)
  | exec (k now : Nat)
  | sweep (now : Nat)
  | heartbeat (a now : Nat)

/-- Apply one operation under a configuration. -/
def applyOp (cfg : OrchestratorConfig) (s : OrchState) : ApiOp → OrchState
  | .register agent => register_agent s agent
  | .submit task => submit_task s task
  | .drain now fuel => process_task_queue now fuel s
  | .exec k now => run_pending_exec s k now
  | .sweep now => agent_monitor_sweep cfg s now
  | .heartbeat a now => heartbeat_signal s a now

/-- Run a sequence of operations under a configuration. -/
def runOps (cfg : OrchestratorConfig) : List ApiOp → OrchState → OrchState
  | [], s => s
  | op :: rest, s => runOps cfg rest (applyOp cfg s op)

/-! ## Concrete scenario states -/

/-- C2 priority scenario: P1=CRITICAL, P2=NORMAL, P3=HIGH submitted in that
order against one implementation agent, then one dispatch pass. -/
def scenC2 : OrchState :=
  process_task_queue 10 5
    (submit_task
      (submit_task
        (submit_task (register_agent initState implAgent)
          (mkTask "P1" "generate_cpp_module" .implementation .critical []))
        (mkTask "P2" "generate_cpp_module" .implementation .normal []))
      (mkTask "P3" "generate_cpp_module" .implementation .high []))

/-- C2 tie scenario: four NORMAL-priority tasks t1..t4 submitted in order,
then one dispatch pass. -/
def scenC2cex : OrchState :=
  process_task_queue 10 6
    (submit_task
      (submit_task
        (submit_task
          (submit_task (register_agent initState implAgent)
            (mkTask "t1" "generate_cpp_module" .implementation .normal []))
          (mkTask "t2" "generate_cpp_module" .implementation .normal []))
        (mkTask "t3" "generate_cpp_module" .implementation .normal []))
      (mkTask "t4" "generate_cpp_module" .implementation .normal []))

/-- C3 scenario before draining: one CRITICAL task whose single dependency
id "missing" has never been submitted. -/
def preC3 : OrchState :=
  submit_task (register_agent initState testAgent)
    (mkTask "A" "run_unit_tests" .testing .critical ["missing"])

/-- C3 scenario: three iterations of the drain loop on `preC3`. -/
def scenC3 : OrchState := process_task_queue 10 3 preC3

/-- C5/C10 base: one task submitted, dispatched, and completed. -/
def scenC5a : OrchState :=
  run_pending_exec
    (process_task_queue 10 2
      (submit_task (register_agent initState testAgent)
        (mkTask "T" "run_unit_tests" .testing .normal [])))
    0 20

/-- C5 scenario: the COMPLETED task object is handed to `submit_task`
again (Python passes live references) and re-dispatched. -/
def scenC5b : OrchState := process_task_queue 30 2 (submit_task_obj scenC5a 0)

/-- C10 scenario: a second, fresh task object re-using the id of the
completed task is submitted. -/
def scenC10 : OrchState :=
  submit_task scenC5a (mkTask "T" "run_unit_tests" .testing .normal [])

/-- C8 scenario: a task whose `task_type` no testing handler knows,
dispatched but not yet executed. -/
def preC8 : OrchState :=
  process_task_queue 5 2
    (submit_task (register_agent initState testAgent)
      (mkTask "X" "bogus" .testing .normal []))

/-- C1 scenario: task "A" submitted and completed, then task "B" depending
on "A" submitted. -/
def preC1c : OrchState :=
  submit_task
    (run_pending_exec
      (process_task_queue 10 2
        (submit_task (register_agent initState testAgent)
          (mkTask "A" "run_unit_tests" .testing .normal [])))
      0 20)
    (mkTask "B" "run_unit_tests" .testing .normal ["A"])

/-- C1 scenario after the next dispatch pass: "B" is RUNNING. -/
def sC1w : OrchState := process_task_queue 30 2 preC1c

theorem preC1c_reachable : Reachable {} preC1c := by
  have h0 : Reachable {} initState := Reachable.init
  have h1 := Reachable.step h0 (Step.register initState testAgent rfl rfl)
  have h2 := Reachable.step h1 (Step.submit _
    (mkTask "A" "run_unit_tests" .testing .normal []) rfl rfl)
  have h3 := Reachable.step h2 (Step.drain _ 10 2)
  have h4 := Reachable.step h3 (Step.exec _ 0 20)
  exact Reachable.step h4 (Step.submit _
    (mkTask "B" "run_unit_tests" .testing .normal ["A"]) rfl (by decide))

theorem sC1w_reachable : Reachable {} sC1w :=
  Reachable.step preC1c_reachable (Step.drain _ 30 2)

/-- C1 counterexample scenario: while "B" (whose sole dependency is "A")
is RUNNING, the live COMPLETED task object "A" is handed back to
`submit_task` (Python passes references) and the next dispatch pass
re-runs it, demoting the record "A" maps to back to RUNNING. -/
def scenC1cex : OrchState := process_task_queue 40 2 (submit_task_obj sC1w 0)

/-! ## Claim theorems -/

/-- C2 (amended): dispatch order follows the binary heap on the priority
value alone.  The queue's backing list is a binary min-heap in every
reachable state, every pop hands back an entry of minimum priority value
among those queued, and pushes and pops preserve the heap shape — so
dispatch is by ascending priority value: tasks submitted CRITICAL,
NORMAL, HIGH with one eligible agent dispatch as CRITICAL, HIGH, NORMAL.
Within one priority band submission (FIFO) order is NOT guaranteed:
`AgentTask.__lt__` compares only `priority.value`, and the heap is not
stable, so four equal-priority tasks submitted t1, t2, t3, t4 dispatch as
t1, t3, t2, t4. -/
theorem C2_priority_dispatch_order :
    (∀ (cfg : OrchestratorConfig) (s : OrchState),
      Reachable cfg s → IsHeap s.heap) ∧
    (∀ (h h' : List QItem) (q : QItem), IsHeap h →
      heappop h = some (q, h') →
      (∀ x ∈ h, q.prio ≤ x.prio) ∧ IsHeap h') ∧
    (∀ (h : List QItem) (x : QItem), IsHeap h → IsHeap (heappush h x)) ∧
    scenC2.dispatchLog.map (fun p => (taskAt scenC2 p.1).task_id)
      = ["P1", "P3", "P2"] ∧
    scenC2cex.dispatchLog.map (fun p => (taskAt scenC2cex p.1).task_id)
      = ["t1", "t3", "t2", "t4"] :=
  ⟨fun _ _ hR => reachable_isHeap hR,
   fun _ _ _ hH hp => ⟨heappop_min hH hp, heappop_isHeap hH hp⟩,
   fun _ _ hH => heappush_isHeap hH _,
   by decide, by decide⟩

/-- C2 counterexample: four dependency-free NORMAL-priority tasks
submitted in order t1, t2, t3, t4 against one eligible agent are
dispatched t1, t3, t2, t4 — not in submission (FIFO) order, refuting the
claimed FIFO tie-break. -/
theorem C2_fifo_counterexample :
    scenC2cex.dispatchLog.map (fun p => (taskAt scenC2cex p.1).task_id)
      = ["t1", "t3", "t2", "t4"] ∧
    ¬ scenC2cex.dispatchLog.map (fun p => (taskAt scenC2cex p.1).task_id)
      = ["t1", "t2", "t3", "t4"] :=
  ⟨by decide, by decide⟩

/-- C3 (amended): a popped task that cannot be dispatched is re-pushed
with its original ordering key unchanged (the very same heap entry), but
the two failure cases differ: when dependencies are unsatisfied the loop
CONTINUES draining (re-entering the loop body), and only when no agent of
the required type is available does it stop draining for the cycle. -/
theorem C3_requeue_policy (s : OrchState) (now fuel : Nat) (item : QItem)
    (heap' : List QItem) (hrun : s.running = true)
    (hpop : heappop s.heap = some (item, heap')) :
    (dependencies_satisfied (taskAt s item.obj) s.completed_tasks = false →
      process_task_queue now (fuel + 1) s = process_task_queue now fuel
        { s with heap := heappush heap' item, popLog := s.popLog ++ [item.obj] }) ∧
    (dependencies_satisfied (taskAt s item.obj) s.completed_tasks = true →
      find_available_agent s.agents (taskAt s item.obj).agent_type = none →
      process_task_queue now (fuel + 1) s =
        { s with heap := heappush heap' item, popLog := s.popLog ++ [item.obj] }) := by
  have hne : ¬(s.heap.length = 0 ∨ s.running = false) := by
    intro hor
    rcases hor with h0 | h0
    · rw [List.length_eq_zero] at h0
      rw [h0] at hpop
      cases hpop
    · rw [hrun] at h0
      cases h0
  constructor
  · intro hdeps
    have hdeps' : dependencies_satisfied (s.store.getD item.obj dummyTask)
        s.completed_tasks = false := hdeps
    rw [process_task_queue, if_neg hne, hpop]
    dsimp only
    rw [if_pos hdeps']
  · intro hdeps hfind
    have hdeps' : dependencies_satisfied (s.store.getD item.obj dummyTask)
        s.completed_tasks = true := hdeps
    have hfind' : find_available_agent s.agents
        (s.store.getD item.obj dummyTask).agent_type = none := hfind
    rw [process_task_queue, if_neg hne, hpop]
    dsimp only
    rw [if_neg (by rw [hdeps']; intro hc; cases hc), hfind']

/-- C3 witness: on the concrete blocked-head state, one loop entry pops,
re-pushes the same entry, and continues into the next loop entry. -/
theorem C3_requeue_policy_witness :
    heappop preC3.heap = some (⟨1, 0⟩, []) ∧
    dependencies_satisfied (taskAt preC3 0) preC3.completed_tasks
      = false ∧
    process_task_queue 10 2 preC3 = process_task_queue 10 1
      { preC3 with heap := heappush [] ⟨1, 0⟩, popLog := preC3.popLog ++ [0] } :=
  ⟨by decide, by decide,
    (C3_requeue_policy preC3 10 1 ⟨1, 0⟩ [] (by decide) (by decide)).1
      (by decide)⟩

/-- C3 counterexample: with a single permanently blocked CRITICAL task,
three loop entries of one `_process_task_queue` call pop the same task
three times — the drain does NOT stop after the first unsatisfied pop
(which would leave `popLog` with a single entry); the task is re-queued
with its original key `(1, 0)`. -/
theorem C3_stop_draining_counterexample :
    scenC3.popLog = [0, 0, 0] ∧ scenC3.heap = [⟨1, 0⟩] ∧
    ¬ scenC3.popLog.length ≤ 1 :=
  ⟨by decide, by decide, by decide⟩

/-- C5 counterexample: `submit_task` accepts the live, already-COMPLETED
task object back (Python passes references; `get_task_status` returns
them), and the next dispatch pass unconditionally rewrites its status to
RUNNING — a transition attempt on a terminal record is NOT a no-op. -/
theorem C5_terminal_stickiness_counterexample :
    (taskAt scenC5a 0).status = .completed ∧
    (taskAt scenC5a 0).result = some "unit_tests_executed" ∧
    (taskAt scenC5b 0).status = .running :=
  ⟨by decide, by decide, by decide⟩

/-- C9: `task_timeout` is dead configuration.  Any operation sequence —
submission, dispatch, execution, completion, monitor sweeps, heartbeats —
and the status queries produce identical results under two configurations
that differ only in `task_timeout`; no code path reads it, and no task is
ever failed or cancelled for elapsed time. -/
theorem C9_task_timeout_unread (cfg : OrchestratorConfig) (t : Nat)
    (ops : List ApiOp) (s : OrchState) :
    runOps { cfg with task_timeout := t } ops s = runOps cfg ops s ∧
    get_system_status { cfg with task_timeout := t } s
      = get_system_status cfg s := by
  refine ⟨?_, rfl⟩
  induction ops generalizing s with
  | nil => rfl
  | cons op rest ih =>
      rw [runOps, runOps]
      have hop : applyOp { cfg with task_timeout := t } s op
          = applyOp cfg s op := by
        cases op <;> rfl
      rw [hop]
      exact ih _

/-- C10 counterexample: submitting a second, fresh PENDING task object
that re-uses the id of an already-COMPLETED task overwrites the `tasks`
entry while `completed_tasks` keeps the stale object: the reported counts
then sum to 2 against a task total of 1 — the partition fails. -/
theorem C10_partition_counterexample :
    (get_system_status {} scenC10).tasks_total = 1 ∧
    (get_system_status {} scenC10).tasks_pending
      + (get_system_status {} scenC10).tasks_running
      + (get_system_status {} scenC10).tasks_completed
      + (get_system_status {} scenC10).tasks_failed = 2 :=
  ⟨by decide, by decide⟩

/-- C1 (amended): dependency gating under the submit API's own discipline
— every submission a fresh PENDING task under an unused id.  In every
state so reachable, a RUNNING task has every dependency id mapped by
`completed_tasks` to a COMPLETED task record; and on any inputs, a
dependency id with no entry makes `_dependencies_satisfied` false
(unsatisfied, not an error), so the task is not dispatched until that id
is submitted and completes.  Handing a live terminal task object back to
`submit_task` voids the guarantee — see the counterexample. -/
theorem C1_dependency_gating (cfg : OrchestratorConfig) (s : OrchState)
    (hR : Reachable cfg s) :
    (∀ j, j < s.store.length → (taskAt s j).status = .running →
      ∀ dep ∈ (taskAt s j).dependencies,
        ∃ k, lookupAssoc s.completed_tasks dep = some k ∧
          k < s.store.length ∧ (taskAt s k).status = .completed) ∧
    (∀ (task : AgentTask) (completed : List (String × Nat)) (dep : String),
      dep ∈ task.dependencies → lookupAssoc completed dep = none →
      dependencies_satisfied task completed = false) := by
  have hI := reachable_inv hR
  constructor
  · intro j hj hst dep hdep
    have hsat := hI.runDeps j hj hst
    rw [dependencies_satisfied, List.all_eq_true] at hsat
    have hd := hsat dep hdep
    cases hlk : lookupAssoc s.completed_tasks dep with
    | none =>
        rw [hlk] at hd
        simp at hd
    | some k =>
        obtain ⟨hk1, hk2, _⟩ := hI.compMap (dep, k) (mem_of_lookupAssoc hlk)
        exact ⟨k, rfl, hk1, hk2⟩
  · intro task completed dep hdep hnone
    cases hall : dependencies_satisfied task completed with
    | false => rfl
    | true =>
        exfalso
        rw [dependencies_satisfied, List.all_eq_true] at hall
        have hd := hall dep hdep
        rw [hnone] at hd
        simp at hd

theorem C1_dependency_gating_witness :
    (taskAt sC1w 1).status = .running ∧
    ∃ k, lookupAssoc sC1w.completed_tasks "A" = some k ∧
      k < sC1w.store.length ∧ (taskAt sC1w k).status = .completed :=
  ⟨by decide, (C1_dependency_gating {} sC1w sC1w_reachable).1 1 (by decide)
    (by decide) "A" (by decide)⟩

/-- C1 counterexample: re-submitting the live COMPLETED object "A" while
its dependent "B" is RUNNING re-runs "A" — after the next dispatch pass,
"B" is RUNNING while its dependency id "A" maps to a RUNNING (not
COMPLETED) record, refuting the unconditional gating claim. -/
theorem C1_gating_counterexample :
    (taskAt scenC1cex 1).status = .running ∧
    (taskAt scenC1cex 1).dependencies = ["A"] ∧
    lookupAssoc scenC1cex.tasks "A" = some 0 ∧
    (taskAt scenC1cex 0).status = .running ∧
    ¬ (taskAt scenC1cex 0).status = .completed :=
  ⟨by decide, by decide, by decide, by decide, by decide⟩

/-- The agent-side effect of `_execute_task` is the same on both the
success and the failure branch: the load drops by the step 20, clamped
at 0. -/
theorem execute_task_agents (s : OrchState) (j a now : Nat) :
    (execute_task s j a now).agents = s.agents.set a
      ({ s.agents.getD a dummyAgent with
        load_factor := max 0 ((s.agents.getD a dummyAgent).load_factor - 20) }) := by
  rw [execute_task]
  cases execOutcome (s.agents.getD a dummyAgent).agent_type
      (s.store.getD j dummyTask).task_type <;> rfl

/-- The agent-side effect of `_assign_task_to_agent`: the load rises by
the step 20, with no upper clamp. -/
theorem assign_task_agents (s : OrchState) (j a now : Nat) :
    (assign_task_to_agent s j a now).agents = s.agents.set a
      ({ s.agents.getD a dummyAgent with
        load_factor := (s.agents.getD a dummyAgent).load_factor + 20 }) := rfl

/-- One assignment/completion cycle restores an agent's load factor and
preserves the registry size. -/
theorem load_roundtrip {s : OrchState} {j a : Nat} (now now' : Nat)
    (ha : a < s.agents.length) (h0 : 0 ≤ (agentAt s a).load_factor) :
    (agentAt (execute_task (assign_task_to_agent s j a now) j a now')
      a).load_factor = (agentAt s a).load_factor ∧
    (execute_task (assign_task_to_agent s j a now) j a
      now').agents.length = s.agents.length := by
  have h1 := execute_task_agents (assign_task_to_agent s j a now) j a now'
  rw [assign_task_agents] at h1
  have ha2 : a < (s.agents.set a ({ s.agents.getD a dummyAgent with
      load_factor := (s.agents.getD a dummyAgent).load_factor + 20 }
      : AgentInfo)).length := by
    rw [List.length_set]
    exact ha
  have hg : ((s.agents.set a ({ s.agents.getD a dummyAgent with
      load_factor := (s.agents.getD a dummyAgent).load_factor + 20 }
      : AgentInfo)).getD a dummyAgent)
      = { s.agents.getD a dummyAgent with
          load_factor := (s.agents.getD a dummyAgent).load_factor + 20 } :=
    getD_set_self ha
  constructor
  · show ((execute_task (assign_task_to_agent s j a now) j a
      now').agents.getD a dummyAgent).load_factor = _
    rw [h1, getD_set_self ha2, hg]
    show max 0 (((s.agents.getD a dummyAgent).load_factor + 20) - 20) = _
    have harith : ((s.agents.getD a dummyAgent).load_factor + 20) - 20
        = (s.agents.getD a dummyAgent).load_factor := by omega
    rw [harith]
    exact max_eq_right h0
  · rw [h1, List.length_set, List.length_set]

/-- C4: load clamping.  In every reachable state every agent's
`load_factor` lies in [0, 100]; one `_assign_task_to_agent` (+20) followed
by the `_execute_task` completion path (−20, clamped at 0) restores the
load, and so does any number of such cycles. -/
theorem C4_load_clamping (cfg : OrchestratorConfig) :
    (∀ s : OrchState, Reachable cfg s →
      ∀ ag ∈ s.agents, 0 ≤ ag.load_factor ∧ ag.load_factor ≤ 100) ∧
    (∀ (s : OrchState) (j a now now' : Nat), a < s.agents.length →
      0 ≤ (agentAt s a).load_factor →
      (agentAt (execute_task (assign_task_to_agent s j a now) j a now')
        a).load_factor = (agentAt s a).load_factor) ∧
    (∀ (s : OrchState) (j a now now' n : Nat), a < s.agents.length →
      0 ≤ (agentAt s a).load_factor →
      (agentAt ((fun st => execute_task (assign_task_to_agent st j a now)
        j a now')^[n] s) a).load_factor = (agentAt s a).load_factor) := by
  refine ⟨?_, ?_, ?_⟩
  · intro s hR ag hag
    have hI := reachable_inv hR
    exact ⟨hI.loadLo ag hag, hI.loadHi ag hag⟩
  · intro s j a now now' ha h0
    exact (load_roundtrip now now' ha h0).1
  · intro s j a now now' n ha h0
    induction n generalizing s with
    | zero => rfl
    | succ m ihm =>
        rw [Function.iterate_succ_apply]
        obtain ⟨hload, hlen⟩ := load_roundtrip (j := j) now now' ha h0
        have ha' : a < (execute_task (assign_task_to_agent s j a now) j a
            now').agents.length := by
          rw [hlen]
          exact ha
        have h0' : 0 ≤ (agentAt (execute_task (assign_task_to_agent s j a
            now) j a now') a).load_factor := by
          rw [hload]
          exact h0
        have := ihm (execute_task (assign_task_to_agent s j a now) j a now')
          ha' h0'
        rw [this, hload]

theorem C4_load_clamping_witness :
    (∀ ag ∈ sC1w.agents, 0 ≤ ag.load_factor ∧ ag.load_factor ≤ 100) ∧
    (agentAt (execute_task (assign_task_to_agent preC1c 1 0 50) 1 0 60)
      0).load_factor = (agentAt preC1c 0).load_factor :=
  ⟨(C4_load_clamping {}).1 sC1w sC1w_reachable,
   (C4_load_clamping {}).2.1 preC1c 1 0 50 60 (by decide) (by decide)⟩

/-- The status transitions the orchestrator can take in one operation:
stay, PENDING→RUNNING (dispatch), or RUNNING→{COMPLETED, FAILED}
(execution). -/
def statusStep (a b : TaskStatus) : Prop :=
  a = b ∨ (a = .pending ∧ b = .running) ∨
    (a = .running ∧ (b = .completed ∨ b = .failed))

/-- C5 (amended): along every system step from a reachable state, each
task's status moves only along PENDING → RUNNING → {COMPLETED | FAILED},
and a record that is already terminal is never touched again by any
operation.  (The code has no guard making a transition attempt on a
terminal record a no-op: re-submitting a terminal task object re-runs it,
see the counterexample.) -/
theorem C5_monotonic_terminal (cfg : OrchestratorConfig)
    (s s' : OrchState) (hR : Reachable cfg s) (hS : Step cfg s s') :
    (∀ j, statusStep (taskAt s j).status (taskAt s' j).status) ∧
    (∀ j, j < s.store.length →
      ((taskAt s j).status = .completed ∨ (taskAt s j).status = .failed) →
      taskAt s' j = taskAt s j) := by
  have hI := reachable_inv hR
  cases hS with
  | register agent hload hact =>
      exact ⟨fun j => Or.inl rfl, fun j _ _ => rfl⟩
  | sweep now =>
      exact ⟨fun j => Or.inl rfl, fun j _ _ => rfl⟩
  | heartbeat a now =>
      have ht : ∀ j, taskAt (heartbeat_signal s a now) j = taskAt s j := by
        intro j
        by_cases ha : a < s.agents.length <;>
          simp [taskAt, heartbeat_signal, ha]
      exact ⟨fun j => Or.inl (by rw [ht j]), fun j _ _ => ht j⟩
  | submit task hst hfresh =>
      have hT : ∀ j, j < s.store.length →
          taskAt (submit_task s task) j = taskAt s j := by
        intro j hj
        rw [submit_task_eq]
        show (s.store ++ [task]).getD j dummyTask = _
        exact List.getD_append _ _ _ _ hj
      constructor
      · intro j
        by_cases hj : j < s.store.length
        · exact Or.inl (by rw [hT j hj])
        · left
          have hold : (taskAt s j).status = .pending := by
            show (s.store.getD j dummyTask).status = _
            rw [List.getD_eq_default _ _ (by omega)]
            rfl
          have hnew : (taskAt (submit_task s task) j).status = .pending := by
            rw [submit_task_eq]
            show ((s.store ++ [task]).getD j dummyTask).status = _
            by_cases hje : j = s.store.length
            · subst hje
              rw [List.getD_append_right _ _ _ _ (le_refl _)]
              simpa using hst
            · rw [List.getD_eq_default _ _ (by simp; omega)]
              rfl
          rw [hold, hnew]
      · intro j hj _
        exact hT j hj
  | drain now fuel =>
      constructor
      · intro j
        rcases drain_task_evolution hI now fuel j with h | h
        · exact Or.inl (by rw [h])
        · exact Or.inr (Or.inl ⟨h.1, h.2⟩)
      · intro j _ hterm
        rcases drain_task_evolution hI now fuel j with h | h
        · exact h
        · exfalso
          rcases hterm with ht | ht <;> rw [h.1] at ht <;> cases ht
  | exec k now =>
      constructor
      · intro j
        rcases exec_task_evolution hI k now j with h | h
        · exact Or.inl (by rw [h])
        · exact Or.inr (Or.inr ⟨h.1, h.2⟩)
      · intro j _ hterm
        rcases exec_task_evolution hI k now j with h | h
        · exact h
        · exfalso
          rcases hterm with ht | ht <;> rw [h.1] at ht <;> cases ht

theorem C5_monotonic_terminal_witness :
    taskAt sC1w 0 = taskAt preC1c 0 ∧
    (taskAt preC1c 0).status = .completed :=
  ⟨(C5_monotonic_terminal {} preC1c sC1w preC1c_reachable
      (Step.drain _ 30 2)).2 0 (by decide) (Or.inl (by decide)), by decide⟩

/-- C6: heartbeat liveness.  An agent whose `last_heartbeat` is older than
`heartbeat_timeout` is marked inactive by the monitor's next sweep; the
scan never returns an inactive agent, so it is excluded from
`_find_available_agent`; a fresh heartbeat signal (modelled from the spec,
the receipt path is absent from `src/`) resets `is_active` and
`last_heartbeat`, making the agent eligible again immediately (given
matching type and load headroom). -/
theorem C6_heartbeat_liveness (cfg : OrchestratorConfig) (s : OrchState)
    (now a : Nat) (t : AgentType) :
    (a < s.agents.length →
      now - (agentAt s a).last_heartbeat > cfg.heartbeat_timeout →
      (agentAt (agent_monitor_sweep cfg s now) a).is_active = false) ∧
    (∀ (agents : List AgentInfo) (i : Nat),
      find_available_agent agents t = some i →
      (agents.getD i dummyAgent).is_active = true) ∧
    (a < s.agents.length →
      (agentAt (heartbeat_signal s a now) a).is_active = true ∧
      (agentAt (heartbeat_signal s a now) a).last_heartbeat = now) ∧
    (a < s.agents.length → (agentAt s a).agent_type = t →
      (agentAt s a).load_factor < 80 →
      agentAvailable (agentAt (heartbeat_signal s a now) a) t = true) := by
  have hagents : ∀ ha : a < s.agents.length,
      (heartbeat_signal s a now).agents = s.agents.set a
        ({ s.agents.getD a dummyAgent with
          is_active := true, last_heartbeat := now }) := by
    intro ha
    simp [heartbeat_signal, ha]
  have hself : ∀ ha : a < s.agents.length,
      agentAt (heartbeat_signal s a now) a
        = { s.agents.getD a dummyAgent with
            is_active := true, last_heartbeat := now } := by
    intro ha
    show (heartbeat_signal s a now).agents.getD a dummyAgent = _
    rw [hagents ha]
    exact getD_set_self ha
  refine ⟨?_, ?_, ?_, ?_⟩
  · intro ha htimeout
    have hmap : agentAt (agent_monitor_sweep cfg s now) a
        = if now - (agentAt s a).last_heartbeat > cfg.heartbeat_timeout then
            { agentAt s a with is_active := false }
          else agentAt s a := by
      show ((s.agents.map _).getD a dummyAgent) = _
      exact getD_map_lt ha _ _
    rw [hmap, if_pos htimeout]
  · intro agents i hf
    exact (agentAvailable_iff.mp (find_available_agent_some hf).2.1).2.1
  · intro ha
    rw [hself ha]
    exact ⟨rfl, rfl⟩
  · intro ha htype hload
    rw [hself ha]
    exact agentAvailable_iff.mpr ⟨htype, rfl, hload⟩

theorem C6_heartbeat_liveness_witness :
    (agentAt (agent_monitor_sweep {}
      (register_agent initState testAgent) 200) 0).is_active = false ∧
    (agentAt (heartbeat_signal (agent_monitor_sweep {}
      (register_agent initState testAgent) 200) 0 500) 0).is_active
      = true ∧
    agentAvailable (agentAt (heartbeat_signal (agent_monitor_sweep {}
      (register_agent initState testAgent) 200) 0 500) 0) .testing
      = true :=
  ⟨(C6_heartbeat_liveness {} (register_agent initState testAgent)
      200 0 .testing).1 (by decide) (by decide),
   ((C6_heartbeat_liveness {} (agent_monitor_sweep {}
      (register_agent initState testAgent) 200) 500 0 .testing).2.2.1
      (by decide)).1,
   (C6_heartbeat_liveness {} (agent_monitor_sweep {}
      (register_agent initState testAgent) 200) 500 0 .testing).2.2.2
      (by decide) (by decide) (by decide)⟩

/-- C7: the agent scan.  `_find_available_agent` returns index `i` exactly
when agent `i` is the first in registration (dict-iteration) order whose
type matches, whose active flag is set, and whose load is strictly below
the threshold 80; it returns `none` exactly when no registered agent
qualifies.  Consequently, in every reachable state every dispatched
(task, agent) pair is type-matched. -/
theorem C7_find_available_contract (cfg : OrchestratorConfig)
    (s : OrchState) (hR : Reachable cfg s) :
    (∀ (agents : List AgentInfo) (t : AgentType) (i : Nat),
      find_available_agent agents t = some i ↔
        i < agents.length ∧
        (agents.getD i dummyAgent).agent_type = t ∧
        (agents.getD i dummyAgent).is_active = true ∧
        (agents.getD i dummyAgent).load_factor < 80 ∧
        ∀ j, j < i → agentAvailable (agents.getD j dummyAgent) t = false) ∧
    (∀ (agents : List AgentInfo) (t : AgentType),
      find_available_agent agents t = none ↔
        ∀ j, j < agents.length →
          agentAvailable (agents.getD j dummyAgent) t = false) ∧
    (∀ p ∈ s.dispatchLog,
      (taskAt s p.1).agent_type = (agentAt s p.2).agent_type) := by
  refine ⟨?_, ?_, ?_⟩
  · intro agents t i
    constructor
    · intro hf
      obtain ⟨h1, h2, h3⟩ := find_available_agent_some hf
      obtain ⟨ht, hac, hl⟩ := agentAvailable_iff.mp h2
      exact ⟨h1, ht, hac, hl, h3⟩
    · rintro ⟨h1, ht, hac, hl, hmin⟩
      exact find_available_agent_complete h1
        (agentAvailable_iff.mpr ⟨ht, hac, hl⟩) hmin
  · intro agents t
    constructor
    · exact find_available_agent_none
    · exact find_available_agent_none_complete
  · intro p hp
    exact ((reachable_inv hR).dispatchOk p hp).2.2

theorem C7_find_available_contract_witness :
    find_available_agent sC1w.agents .testing = some 0 ∧
    (taskAt sC1w 1).agent_type = (agentAt sC1w 0).agent_type :=
  ⟨((C7_find_available_contract {} sC1w sC1w_reachable).1 sC1w.agents
      .testing 0).mpr ⟨by decide, by decide, by decide, by decide,
      by intro j hj; omega⟩,
   (C7_find_available_contract {} sC1w sC1w_reachable).2.2 (1, 0)
      (by decide)⟩

/-- C8: failure handling.  When the handler routing raises for a
dispatched pair, the worker-pool step leaves the task FAILED with the
captured message and a `completed_at` stamp, releases the agent's load,
removes the execution from the pool backlog, does not re-queue the task
(no retry: the priority queue is untouched), and the failure never
propagates to the submitter — it is observable only by polling
`get_task_status`. -/
theorem C8_failure_handling (s : OrchState) (k j a now : Nat)
    (msg : String) (hj : j < s.store.length) (ha : a < s.agents.length)
    (hk : s.pendingExec.get? k = some (j, a))
    (hlook : lookupAssoc s.tasks (taskAt s j).task_id = some j)
    (hout : execOutcome (agentAt s a).agent_type (taskAt s j).task_type
      = .error msg) :
    (taskAt (run_pending_exec s k now) j).status = .failed ∧
    (taskAt (run_pending_exec s k now) j).error_message = some msg ∧
    (taskAt (run_pending_exec s k now) j).completed_at = some now ∧
    (agentAt (run_pending_exec s k now) a).load_factor
      = max 0 ((agentAt s a).load_factor - 20) ∧
    (run_pending_exec s k now).heap = s.heap ∧
    (run_pending_exec s k now).pendingExec = s.pendingExec.eraseIdx k ∧
    get_task_status (run_pending_exec s k now) (taskAt s j).task_id
      = some (taskAt (run_pending_exec s k now) j) := by
  have hout' : execOutcome (s.agents.getD a dummyAgent).agent_type
      (s.store.getD j dummyTask).task_type = .error msg := hout
  have heq : run_pending_exec s k now
      = execute_task { s with pendingExec := s.pendingExec.eraseIdx k }
        j a now := by
    rw [run_pending_exec, hk]
  rw [heq, execute_task, hout']
  dsimp only
  refine ⟨?_, ?_, ?_, ?_, rfl, rfl, ?_⟩
  · show ((s.store.set j _).getD j dummyTask).status = _
    rw [getD_set_self hj]
  · show ((s.store.set j _).getD j dummyTask).error_message = _
    rw [getD_set_self hj]
  · show ((s.store.set j _).getD j dummyTask).completed_at = _
    rw [getD_set_self hj]
  · show ((s.agents.set a _).getD a dummyAgent).load_factor = _
    rw [getD_set_self ha]
    rfl
  · show (lookupAssoc s.tasks (taskAt s j).task_id).map _ = _
    rw [hlook]
    show some ((s.store.set j _).getD j dummyTask) = _
    rw [getD_set_self hj]
    show _ = some ((s.store.set j _).getD j dummyTask)
    rw [getD_set_self hj]

theorem C8_failure_handling_witness :
    (taskAt (run_pending_exec preC8 0 9) 0).status = .failed ∧
    (taskAt (run_pending_exec preC8 0 9) 0).error_message
      = some "Unknown testing task: bogus" ∧
    (run_pending_exec preC8 0 9).heap = preC8.heap :=
  ⟨(C8_failure_handling preC8 0 0 0 9 "Unknown testing task: bogus"
      (by decide) (by decide) (by decide) (by decide) rfl).1,
   (C8_failure_handling preC8 0 0 0 9 "Unknown testing task: bogus"
      (by decide) (by decide) (by decide) (by decide) rfl).2.1,
   (C8_failure_handling preC8 0 0 0 9 "Unknown testing task: bogus"
      (by decide) (by decide) (by decide) (by decide) rfl).2.2.2.2.1⟩

/-- C10 (amended): provided every submission is a fresh PENDING task with
an unused id — the discipline of the submit API, which constructs each
task anew with a fresh uuid — the terminal dictionaries hold exactly the
tasks whose status is terminal, submitted tasks are never removed from
the `tasks` dictionary, and the pending/running/completed/failed counts
of `get_system_status` partition the submitted tasks (they sum to the
total).  Re-using an id breaks this, see the counterexample. -/
theorem C10_status_partition (cfg : OrchestratorConfig) (s s' : OrchState)
    (hR : Reachable cfg s) (hS : Step cfg s s') (id : String) (j : Nat) :
    (lookupAssoc s.tasks id = some j → lookupAssoc s'.tasks id = some j) ∧
    (get_system_status cfg s).tasks_pending
      + (get_system_status cfg s).tasks_running
      + (get_system_status cfg s).tasks_completed
      + (get_system_status cfg s).tasks_failed
      = (get_system_status cfg s).tasks_total ∧
    (∀ p ∈ s.completed_tasks, lookupAssoc s.tasks p.1 = some p.2 ∧
      (taskAt s p.2).status = .completed) ∧
    (∀ p ∈ s.tasks, (taskAt s p.2).status = .completed →
      lookupAssoc s.completed_tasks p.1 = some p.2) ∧
    (∀ p ∈ s.failed_tasks, lookupAssoc s.tasks p.1 = some p.2 ∧
      (taskAt s p.2).status = .failed) ∧
    (∀ p ∈ s.tasks, (taskAt s p.2).status = .failed →
      lookupAssoc s.failed_tasks p.1 = some p.2) := by
  have hI := reachable_inv hR
  refine ⟨step_tasks_mono hS, ?_, ?_, ?_, ?_, ?_⟩
  · have hnc : ∀ p ∈ s.tasks,
        (fun q : String × Nat => (s.store.getD q.2 dummyTask).status) p
          ≠ TaskStatus.cancelled := by
      intro p hp
      exact hI.noCancel p.2 (hI.tasksRange p hp).1
    have hpart : s.tasks.length
        = (s.tasks.filter fun p =>
            (s.store.getD p.2 dummyTask).status == TaskStatus.pending).length
        + (s.tasks.filter fun p =>
            (s.store.getD p.2 dummyTask).status == TaskStatus.running).length
        + (s.tasks.filter fun p =>
            (s.store.getD p.2 dummyTask).status
              == TaskStatus.completed).length
        + (s.tasks.filter fun p =>
            (s.store.getD p.2 dummyTask).status
              == TaskStatus.failed).length :=
      length_filter_status s.tasks
        (fun q => (s.store.getD q.2 dummyTask).status) hnc
    show (s.tasks.filter fun p =>
        (s.store.getD p.2 dummyTask).status == TaskStatus.pending).length
      + (s.tasks.filter fun p =>
          (s.store.getD p.2 dummyTask).status == TaskStatus.running).length
      + s.completed_tasks.length + s.failed_tasks.length = s.tasks.length
    rw [comp_count hI, fail_count hI]
    omega
  · intro p hp
    obtain ⟨hl, hst, hid⟩ := hI.compMap p hp
    have hlk := hI.storeIds p.2 hl
    rw [hid] at hlk
    exact ⟨hlk, hst⟩
  · intro p hp hst
    obtain ⟨hl, hid⟩ := hI.tasksRange p hp
    have hlk := hI.compConv p.2 hl hst
    rw [hid] at hlk
    exact hlk
  · intro p hp
    obtain ⟨hl, hst, hid⟩ := hI.failMap p hp
    have hlk := hI.storeIds p.2 hl
    rw [hid] at hlk
    exact ⟨hlk, hst⟩
  · intro p hp hst
    obtain ⟨hl, hid⟩ := hI.tasksRange p hp
    have hlk := hI.failConv p.2 hl hst
    rw [hid] at hlk
    exact hlk

theorem C10_status_partition_witness :
    lookupAssoc sC1w.tasks "A" = some 0 ∧
    (get_system_status {} preC1c).tasks_pending
      + (get_system_status {} preC1c).tasks_running
      + (get_system_status {} preC1c).tasks_completed
      + (get_system_status {} preC1c).tasks_failed
      = (get_system_status {} preC1c).tasks_total :=
  ⟨(C10_status_partition {} preC1c sC1w preC1c_reachable
      (Step.drain _ 30 2) "A" 0).1 (by decide),
   (C10_status_partition {} preC1c sC1w preC1c_reachable
      (Step.drain _ 30 2) "A" 0).2.1⟩

end Orchestrator
